import Mathlib

/-!
# Orthanc configuration store (`OrthancServer/OrthancConfiguration.cpp`)

A shallow embedding of the configuration aggregation code of Orthanc:
the merge of configuration fragments, the typed parameter getters, the
registries of DICOM modalities and Orthanc peers, and the AET policy.

Conventions of the embedding:

* `std::string` is `String`; `std::map<std::string, V>` is an association
  list whose keys are kept in ascending order by `StdMap.insert`;
* a procedure that mutates its target and may throw returns a `Run`: the
  state it leaves behind together with the exception thrown, if any;
* a `const` function that may throw returns `Except ErrorCode _`;
* C++ `int` and `unsigned int` are 32 bits wide: an `int` is a `CInt`, an
  integer within `-2 ^ 31 .. 2 ^ 31 - 1`, and the conversions between the two
  types are written out modulo `2 ^ 32`.
-/

namespace Orthanc

/-- Error codes carried by the `OrthancException`s thrown in this file. -/
inductive ErrorCode where
  | BadJson
  | BadFileFormat
  | BadParameterType
  | ParameterOutOfRange
  | InexistentFile
  | InexistentItem
  deriving DecidableEq

deriving instance DecidableEq for Except

/-- Outcome of a mutating procedure: the state left behind and the error
code of the exception thrown, `none` when the procedure returned. -/
structure Run (σ : Type) where
  state : σ
  thrown : Option ErrorCode

/-! ## `std::string` and `std::map<std::string, V>` -/

/-- Lexicographic comparison of two character sequences, character by
character on their codes. -/
def lexLess : List Char → List Char → Bool
  | [], [] => false
  | [], _ :: _ => true
  | _ :: _, [] => false
  | a :: as, b :: bs =>
    if a.toNat < b.toNat then true
    else if b.toNat < a.toNat then false
    else lexLess as bs

/-- Comparison `a < b` of two `std::string`s, the order of the keys of a
`std::map<std::string, V>`.  The C++ comparison runs over the bytes of the
strings, which orders UTF-8 text as the codes of its characters do. -/
def stringLess (a b : String) : Bool :=
  lexLess a.data b.data

namespace StdMap

/-- Assignment `m[k] = v`: overwrites the value of an existing key, else
inserts the pair at its place in ascending key order. -/
def insert {V : Type} (k : String) (v : V) : List (String × V) → List (String × V)
  | [] => [(k, v)]
  | (k', v') :: rest =>
    if stringLess k k' then (k, v) :: (k', v') :: rest
    else if stringLess k' k then (k', v') :: insert k v rest
    else (k, v) :: rest

/-- Lookup `m.find(k)`: the value stored under `k`, `none` for `end()`. -/
def find {V : Type} (k : String) : List (String × V) → Option V
  | [] => none
  | (k', v') :: rest => if k' = k then some v' else find k rest

/-- Removal `m.erase(k)`: drops the entry stored under `k`, if any. -/
def erase {V : Type} (k : String) : List (String × V) → List (String × V)
  | [] => []
  | (k', v') :: rest => if k' = k then rest else (k', v') :: erase k rest

/-- Keys in iteration order. -/
def keys {V : Type} (m : List (String × V)) : List String :=
  m.map Prod.fst

/-- Representation invariant of a `std::map`: keys strictly ascending. -/
def Ordered {V : Type} (m : List (String × V)) : Prop :=
  (keys m).Pairwise (fun a b => stringLess a b = true)

instance {V : Type} (m : List (String × V)) : Decidable (Ordered m) := by
  unfold Ordered; infer_instance

end StdMap

/-! ## The C++ type `int` -/

/-- A C++ `int`: an integer of 32 bits in two's complement. -/
structure CInt where
  val : Int
  inRange : -2147483648 ≤ val ∧ val ≤ 2147483647

instance : DecidableEq CInt := fun a b =>
  match a, b with
  | ⟨x, _⟩, ⟨y, _⟩ =>
    if h : x = y then isTrue (by subst h; rfl)
    else isFalse (fun hab => h (congrArg CInt.val hab))

/-- Conversion of an integer to `int`: the value modulo `2 ^ 32` read in
two's complement, which is the integer itself when it is in range. -/
def CInt.ofInt (z : Int) : CInt :=
  ⟨(z + 2147483648) % 4294967296 - 2147483648, by omega⟩

instance (n : Nat) : OfNat CInt n := ⟨CInt.ofInt n⟩

instance : Neg CInt := ⟨fun a => CInt.ofInt (-a.val)⟩

/-! ## JSON values (`Json::Value`) -/

/-- A `Json::Value`, one constructor per `Json::ValueType`.  The payload of
an `intValue` is the `Json::Int` that `asInt()` returns, a C++ `int`; an
integer above the range of `int` is a `uintValue`; a `realValue` is kept as
the bit pattern of its double; the members of an `objectValue` are the
entries of its `std::map`, in iteration order. -/
inductive Json where
  | nullValue
  | intValue (v : CInt)
  | uintValue (v : Nat)
  | realValue (bits : Nat)
  | stringValue (s : String)
  | booleanValue (b : Bool)
  | arrayValue (items : List Json)
  | objectValue (members : List (String × Json))

namespace Json

/-- Entries of an object.  A null value has none, and the configuration asks
only objects and null values for their members. -/
def members : Json → List (String × Json)
  | objectValue ms => ms
  | _ => []

/-- Test `type() == Json::objectValue`. -/
def isObject : Json → Bool
  | objectValue _ => true
  | _ => false

/-- Test `type() == Json::stringValue`. -/
def isString : Json → Bool
  | stringValue _ => true
  | _ => false

/-- Test `type() == Json::intValue`. -/
def isInt : Json → Bool
  | intValue _ => true
  | _ => false

/-- Test `type() == Json::booleanValue`. -/
def isBoolean : Json → Bool
  | booleanValue _ => true
  | _ => false

/-- Test `type() == Json::arrayValue`. -/
def isArray : Json → Bool
  | arrayValue _ => true
  | _ => false

/-- Number of elements `size()`: entries of an object, items of an array,
zero for every other value. -/
def size : Json → Nat
  | objectValue ms => ms.length
  | arrayValue items => items.length
  | _ => 0

/-- Member names `getMemberNames()`, in the iteration order of the map. -/
def getMemberNames (j : Json) : List String :=
  StdMap.keys j.members

/-- Test `isMember(key)`. -/
def isMember (j : Json) (key : String) : Bool :=
  (StdMap.find key j.members).isSome

/-- Read access `value[key]` on a `const` value: the member, or the null
value when there is none. -/
def get (j : Json) (key : String) : Json :=
  (StdMap.find key j.members).getD nullValue

/-- Write access `value[key] = v`, which makes an object of a null value. -/
def set (j : Json) (key : String) (v : Json) : Json :=
  objectValue (StdMap.insert key v j.members)

/-- Representation invariant of the top-level object: member names strictly
ascending, hence distinct. -/
def Ordered (j : Json) : Prop :=
  StdMap.Ordered j.members

instance (j : Json) : Decidable (Ordered j) := by
  unfold Ordered; infer_instance

end Json

/-! ## Merging configuration fragments -/

/-- Loop of `AddFileToConfiguration` (lines 87-100) over the member names of
the fragment `config` that are still to be merged into `target`. -/
def AddFileToConfiguration.loop (config : Json) : List String → Json → Run Json
  | [], target => ⟨target, none⟩
  | name :: rest, target =>
    if target.isMember name then
      ⟨target, some ErrorCode.BadFileFormat⟩
    else
      AddFileToConfiguration.loop config rest (target.set name (config.get name))

/-- Merge step of `AddFileToConfiguration` (lines 80-101).  The fragment
`config` is the comment-free copy of the parsed content of one file, which
lines 60-78 have checked to be an object. -/
def AddFileToConfiguration (target config : Json) : Run Json :=
  if target.size = 0 then
    ⟨config, none⟩
  else
    AddFileToConfiguration.loop config config.getMemberNames target

/-- `ScanFolderForConfiguration` (lines 105-128), over the fragments of the
regular files of the folder whose extension is `.json`, in the order of the
directory iteration.  An exception of `AddFileToConfiguration` ends the scan. -/
def ScanFolderForConfiguration : Json → List Json → Run Json
  | target, [] => ⟨target, none⟩
  | target, config :: rest =>
    match AddFileToConfiguration target config with
    | ⟨merged, none⟩ => ScanFolderForConfiguration merged rest
    | ⟨merged, some e⟩ => ⟨merged, some e⟩

/-! ## Typed parameter getters -/

/-- The configuration store: the merged tree and the two registries, each a
`std::map` from symbolic name to descriptor.  The descriptor classes
`RemoteModalityParameters` and `WebServiceParameters` are declared outside
this file; `M` and `P` are their value types. -/
structure OrthancConfiguration (M P : Type) where
  json_ : Json
  modalities_ : List (String × M)
  peers_ : List (String × P)

/-- Conversion of an `unsigned int` to `int`: the value modulo `2 ^ 32`
read in two's complement. -/
def toInt (n : Nat) : Int :=
  if n % 4294967296 < 2147483648 then ((n % 4294967296 : Nat) : Int)
  else ((n % 4294967296 : Nat) : Int) - 4294967296

/-- Conversion `static_cast<unsigned int>(v)`: the value modulo `2 ^ 32`. -/
def toUnsigned (v : Int) : Nat :=
  (v % 4294967296).toNat

namespace OrthancConfiguration

variable {M P : Type}

/-- `GetStringParameter` (lines 322-341). -/
def GetStringParameter (c : OrthancConfiguration M P) (parameter : String)
    (defaultValue : String) : Except ErrorCode String :=
  if c.json_.isMember parameter then
    match c.json_.get parameter with
    | Json.stringValue s => Except.ok s
    | _ => Except.error ErrorCode.BadParameterType
  else
    Except.ok defaultValue

/-- `GetIntegerParameter` (lines 344-363): the default and the result are
C++ `int`s. -/
def GetIntegerParameter (c : OrthancConfiguration M P) (parameter : String)
    (defaultValue : CInt) : Except ErrorCode CInt :=
  if c.json_.isMember parameter then
    match c.json_.get parameter with
    | Json.intValue v => Except.ok v
    | _ => Except.error ErrorCode.BadParameterType
  else
    Except.ok defaultValue

/-- `GetUnsignedIntegerParameter` (lines 366-381): the unsigned default is
passed to the signed getter, whose result is held in an `int`. -/
def GetUnsignedIntegerParameter (c : OrthancConfiguration M P) (parameter : String)
    (defaultValue : Nat) : Except ErrorCode Nat :=
  match c.GetIntegerParameter parameter
      ⟨toInt defaultValue, by unfold toInt; split <;> omega⟩ with
  | Except.error e => Except.error e
  | Except.ok v =>
    if v.val < 0 then Except.error ErrorCode.ParameterOutOfRange
    else Except.ok (toUnsigned v.val)

/-- `GetBooleanParameter` (lines 384-404). -/
def GetBooleanParameter (c : OrthancConfiguration M P) (parameter : String)
    (defaultValue : Bool) : Except ErrorCode Bool :=
  if c.json_.isMember parameter then
    match c.json_.get parameter with
    | Json.booleanValue b => Except.ok b
    | _ => Except.error ErrorCode.BadParameterType
  else
    Except.ok defaultValue

end OrthancConfiguration

/-! ## Symbolic names -/

/-- Test `isalnum(c)` in the "C" locale: an ASCII digit or letter. -/
def isalnum (c : Char) : Bool :=
  (48 ≤ c.toNat && c.toNat ≤ 57) || (65 ≤ c.toNat && c.toNat ≤ 90) ||
    (97 ≤ c.toNat && c.toNat ≤ 122)

/-- Loop of `CheckAlphanumeric` over the characters still to be checked. -/
def CheckAlphanumeric.loop : List Char → Except ErrorCode Unit
  | [] => Except.ok ()
  | ch :: rest =>
    if !isalnum ch && ch != '-' then Except.error ErrorCode.BadFileFormat
    else CheckAlphanumeric.loop rest

/-- `CheckAlphanumeric` (lines 174-186). -/
def CheckAlphanumeric (s : String) : Except ErrorCode Unit :=
  CheckAlphanumeric.loop s.data

/-- A symbolic name as the configuration allows it: every character is
alphanumeric or a dash. -/
def IsSymbolicName (s : String) : Prop :=
  ∀ ch ∈ s.data, isalnum ch = true ∨ ch = '-'

instance (s : String) : Decidable (IsSymbolicName s) := by
  unfold IsSymbolicName; infer_instance

/-! ## Registries of modalities and peers -/

/-- Member functions of the class `RemoteModalityParameters` that the
configuration calls, over the value type `M` of the class.  `Serialize` is
the call with the advanced format forced; `Unserialize` is applied to a
freshly constructed object and may throw. -/
structure RemoteModalityParameters (M : Type) where
  GetApplicationEntityTitle : M → String
  GetHost : M → String
  Serialize : M → Json
  Unserialize : Json → Except ErrorCode M

/-- Member functions of the class `WebServiceParameters` that the
configuration calls, over the value type `P` of the class.  `Serialize` is
the call with the simple format allowed and the passwords included. -/
structure WebServiceParameters (P : Type) where
  Serialize : P → Json
  Unserialize : Json → Except ErrorCode P
  CheckClientCertificate : P → Except ErrorCode Unit

/-- Name of the section of the modalities. -/
def DICOM_MODALITIES : String := "DicomModalities"

/-- Name of the section of the peers. -/
def ORTHANC_PEERS : String := "OrthancPeers"

namespace OrthancConfiguration

variable {M P : Type}

/-- Loop of `LoadModalitiesFromJson` (lines 201-209) over the member names
still to be loaded into `modalities_`. -/
def LoadModalitiesFromJson.loop (R : RemoteModalityParameters M) (source : Json) :
    List String → List (String × M) → Run (List (String × M))
  | [], modalities_ => ⟨modalities_, none⟩
  | name :: rest, modalities_ =>
    match CheckAlphanumeric name with
    | Except.error e => ⟨modalities_, some e⟩
    | Except.ok _ =>
      match R.Unserialize (source.get name) with
      | Except.error e => ⟨modalities_, some e⟩
      | Except.ok modality =>
        LoadModalitiesFromJson.loop R source rest (StdMap.insert name modality modalities_)

/-- `LoadModalitiesFromJson` (lines 189-210): the registry it leaves in
`modalities_`, which it clears first. -/
def LoadModalitiesFromJson (R : RemoteModalityParameters M) (source : Json) :
    Run (List (String × M)) :=
  if source.isObject then
    LoadModalitiesFromJson.loop R source source.getMemberNames []
  else
    ⟨[], some ErrorCode.BadFileFormat⟩

/-- `SaveModalitiesToJson` (lines 213-224): the value it leaves in `target`. -/
def SaveModalitiesToJson (R : RemoteModalityParameters M)
    (modalities_ : List (String × M)) : Json :=
  modalities_.foldl (fun target it => target.set it.1 (R.Serialize it.2))
    (Json.objectValue [])

/-- Loop of `LoadPeersFromJson` (lines 239-247) over the member names still
to be loaded into `peers_`. -/
def LoadPeersFromJson.loop (W : WebServiceParameters P) (source : Json) :
    List String → List (String × P) → Run (List (String × P))
  | [], peers_ => ⟨peers_, none⟩
  | name :: rest, peers_ =>
    match CheckAlphanumeric name with
    | Except.error e => ⟨peers_, some e⟩
    | Except.ok _ =>
      match W.Unserialize (source.get name) with
      | Except.error e => ⟨peers_, some e⟩
      | Except.ok peer =>
        LoadPeersFromJson.loop W source rest (StdMap.insert name peer peers_)

/-- `LoadPeersFromJson` (lines 227-248): the registry it leaves in `peers_`,
which it clears first. -/
def LoadPeersFromJson (W : WebServiceParameters P) (source : Json) :
    Run (List (String × P)) :=
  if source.isObject then
    LoadPeersFromJson.loop W source source.getMemberNames []
  else
    ⟨[], some ErrorCode.BadFileFormat⟩

/-- `SavePeersToJson` (lines 251-264): the value it leaves in `target`. -/
def SavePeersToJson (W : WebServiceParameters P) (peers_ : List (String × P)) : Json :=
  peers_.foldl (fun target it => target.set it.1 (W.Serialize it.2))
    (Json.objectValue [])

/-- The loop that `LoadModalitiesFromJson` and `LoadPeersFromJson` share, over
the `Unserialize` of the descriptor class: both loops are instances of it
(`modalities_loop_eq`, `peers_loop_eq`). -/
def LoadLoop {V : Type} (unserialize : Json → Except ErrorCode V) (source : Json) :
    List String → List (String × V) → Run (List (String × V))
  | [], registry => ⟨registry, none⟩
  | name :: rest, registry =>
    match CheckAlphanumeric name with
    | Except.error e => ⟨registry, some e⟩
    | Except.ok _ =>
      match unserialize (source.get name) with
      | Except.error e => ⟨registry, some e⟩
      | Except.ok item => LoadLoop unserialize source rest (StdMap.insert name item registry)

/-- `SaveModalities` (lines 291-300). -/
def SaveModalities (R : RemoteModalityParameters M) (c : OrthancConfiguration M P) :
    OrthancConfiguration M P :=
  if !c.modalities_.isEmpty || c.json_.isMember DICOM_MODALITIES then
    { c with json_ := c.json_.set DICOM_MODALITIES (SaveModalitiesToJson R c.modalities_) }
  else
    c

/-- `SavePeers` (lines 303-312). -/
def SavePeers (W : WebServiceParameters P) (c : OrthancConfiguration M P) :
    OrthancConfiguration M P :=
  if !c.peers_.isEmpty || c.json_.isMember ORTHANC_PEERS then
    { c with json_ := c.json_.set ORTHANC_PEERS (SavePeersToJson W c.peers_) }
  else
    c

/-- `UpdateModality` (lines 653-658). -/
def UpdateModality (R : RemoteModalityParameters M) (c : OrthancConfiguration M P)
    (symbolicName : String) (modality : M) : Run (OrthancConfiguration M P) :=
  ⟨SaveModalities R { c with modalities_ := StdMap.insert symbolicName modality c.modalities_ },
    none⟩

/-- `RemoveModality` (lines 661-665). -/
def RemoveModality (R : RemoteModalityParameters M) (c : OrthancConfiguration M P)
    (symbolicName : String) : Run (OrthancConfiguration M P) :=
  ⟨SaveModalities R { c with modalities_ := StdMap.erase symbolicName c.modalities_ }, none⟩

/-- `UpdatePeer` (lines 668-675). -/
def UpdatePeer (W : WebServiceParameters P) (c : OrthancConfiguration M P)
    (symbolicName : String) (peer : P) : Run (OrthancConfiguration M P) :=
  match W.CheckClientCertificate peer with
  | Except.error e => ⟨c, some e⟩
  | Except.ok _ =>
    ⟨SavePeers W { c with peers_ := StdMap.insert symbolicName peer c.peers_ }, none⟩

/-- `RemovePeer` (lines 678-682). -/
def RemovePeer (W : WebServiceParameters P) (c : OrthancConfiguration M P)
    (symbolicName : String) : Run (OrthancConfiguration M P) :=
  ⟨SavePeers W { c with peers_ := StdMap.erase symbolicName c.peers_ }, none⟩

end OrthancConfiguration

/-! ## AET policy -/

/-- Modelled from the spec: `Toolbox::ToLowerCase` is defined outside this
file; the lower-casing behind the case-insensitive comparison of AETs maps
the ASCII capital letters to their small letters and keeps every other
character. -/
def ToLowerCase (s : String) : String :=
  String.mk (s.data.map fun ch =>
    if 65 ≤ ch.toNat ∧ ch.toNat ≤ 90 then Char.ofNat (ch.toNat + 32) else ch)

namespace OrthancConfiguration

variable {M P : Type}

/-- `IsSameAETitle` (lines 564-580). -/
def IsSameAETitle (c : OrthancConfiguration M P) (aet1 aet2 : String) :
    Except ErrorCode Bool :=
  match c.GetBooleanParameter "StrictAetComparison" false with
  | Except.error e => Except.error e
  | Except.ok true => Except.ok (decide (aet1 = aet2))
  | Except.ok false => Except.ok (decide (ToLowerCase aet1 = ToLowerCase aet2))

/-- Loop of `LookupDicomModalityUsingAETitle` (lines 586-593) over the
entries of `modalities_` still to be compared. -/
def LookupDicomModalityUsingAETitle.loop (R : RemoteModalityParameters M)
    (c : OrthancConfiguration M P) (aet : String) :
    List (String × M) → Except ErrorCode (Option M)
  | [] => Except.ok none
  | it :: rest =>
    match c.IsSameAETitle aet (R.GetApplicationEntityTitle it.2) with
    | Except.error e => Except.error e
    | Except.ok true => Except.ok (some it.2)
    | Except.ok false => LookupDicomModalityUsingAETitle.loop R c aet rest

/-- `LookupDicomModalityUsingAETitle` (lines 583-596): the modality found,
`none` when the function returns `false`. -/
def LookupDicomModalityUsingAETitle (R : RemoteModalityParameters M)
    (c : OrthancConfiguration M P) (aet : String) : Except ErrorCode (Option M) :=
  LookupDicomModalityUsingAETitle.loop R c aet c.modalities_

/-- `IsKnownAETitle` (lines 599-623). -/
def IsKnownAETitle (R : RemoteModalityParameters M) (c : OrthancConfiguration M P)
    (aet ip : String) : Except ErrorCode Bool :=
  match c.LookupDicomModalityUsingAETitle R aet with
  | Except.error e => Except.error e
  | Except.ok none => Except.ok false
  | Except.ok (some modality) =>
    match c.GetBooleanParameter "DicomCheckModalityHost" false with
    | Except.error e => Except.error e
    | Except.ok check =>
      if !check || decide (ip = R.GetHost modality) then Except.ok true
      else Except.ok false

end OrthancConfiguration

/-! ## Lookups by name, lists of strings -/

/-- Call `asString()` on an item of a list: the payload of a string value;
JsonCpp converts the values of the other types, `other` stands for that
conversion. -/
def Json.asString (other : Json → String) : Json → String
  | Json.stringValue s => s
  | j => other j

namespace OrthancConfiguration

variable {M P : Type}

/-- `GetDicomModalityUsingSymbolicName` (lines 447-462): the modality copied
into the out-parameter. -/
def GetDicomModalityUsingSymbolicName (c : OrthancConfiguration M P) (name : String) :
    Except ErrorCode M :=
  match StdMap.find name c.modalities_ with
  | none => Except.error ErrorCode.InexistentItem
  | some found => Except.ok found

/-- `LookupOrthancPeer` (lines 465-480): the peer copied into the
out-parameter, `none` when the function returns `false`. -/
def LookupOrthancPeer (c : OrthancConfiguration M P) (name : String) : Option P :=
  match StdMap.find name c.peers_ with
  | none => none
  | some found => some found

/-- `GetListOfStringsParameter` (lines 539-561), on the list `target` that the
caller hands over: the list it leaves there. -/
def GetListOfStringsParameter (other : Json → String) (c : OrthancConfiguration M P)
    (_target : List String) (key : String) : Run (List String) :=
  if !c.json_.isMember key then
    ⟨[], none⟩
  else
    match c.json_.get key with
    | Json.arrayValue lst =>
      ⟨lst.foldl (fun target item => target ++ [item.asString other]) [], none⟩
    | _ => ⟨[], some ErrorCode.BadFileFormat⟩

/-- `Format` (lines 685-689): the text of the styled writer, `write`. -/
def Format (write : Json → String) (c : OrthancConfiguration M P) : String :=
  write c.json_

/-- `SetDefaultEncoding` (lines 692-699); the call of
`SetDefaultDicomEncoding` writes a global outside the store. -/
def SetDefaultEncoding {E : Type} (EnumerationToString : E → String)
    (c : OrthancConfiguration M P) (encoding : E) : Run (OrthancConfiguration M P) :=
  ⟨{ c with
      json_ := c.json_.set "DefaultEncoding" (Json.stringValue (EnumerationToString encoding)) },
    none⟩

end OrthancConfiguration

/-! ## Reading the configuration -/

/-- `AddFileToConfiguration` from line 55 on: `content` is what lines 55-78
leave, the fragment `config` of the file, or the exception thrown while the
file is read and parsed (`BadJson` when its content is not a JSON object). -/
def AddFileToConfiguration.file (target : Json) : Except ErrorCode Json → Run Json
  | Except.error e => ⟨target, some e⟩
  | Except.ok config => AddFileToConfiguration target config

/-- `ScanFolderForConfiguration` (lines 105-128) over the contents of the
regular files of the folder whose extension is `.json`, in the order of the
directory iteration. -/
def ScanFolderForConfiguration.files : Json → List (Except ErrorCode Json) → Run Json
  | target, [] => ⟨target, none⟩
  | target, content :: rest =>
    match AddFileToConfiguration.file target content with
    | ⟨merged, none⟩ => ScanFolderForConfiguration.files merged rest
    | ⟨merged, some e⟩ => ⟨merged, some e⟩

/-- What `ReadConfiguration` finds at `configurationFile`. -/
inductive ConfigurationPath where
  /-- The null pointer; `bundled` is `none` in a standalone build
  (`ORTHANC_STANDALONE == 1`), else the content of the file
  `Resources/Configuration.json` of the source tree. -/
  | null (bundled : Option (Except ErrorCode Json))
  /-- A path at which nothing exists. -/
  | inexistent
  /-- A path to a file, with its content. -/
  | file (content : Except ErrorCode Json)
  /-- A path to a folder, with the contents of its `.json` files. -/
  | directory (contents : List (Except ErrorCode Json))

/-- `ReadConfiguration` (lines 131-171): the value it leaves in `target`. -/
def ReadConfiguration : ConfigurationPath → Run Json
  | ConfigurationPath.inexistent => ⟨Json.objectValue [], some ErrorCode.InexistentFile⟩
  | ConfigurationPath.directory contents =>
    ScanFolderForConfiguration.files (Json.objectValue []) contents
  | ConfigurationPath.file content =>
    AddFileToConfiguration.file (Json.objectValue []) content
  | ConfigurationPath.null none => ⟨Json.objectValue [], none⟩
  | ConfigurationPath.null (some content) =>
    AddFileToConfiguration.file (Json.objectValue []) content

namespace OrthancConfiguration

variable {M P : Type}

/-- First half of `LoadModalitiesAndPeers` (lines 269-277). -/
def LoadModalitiesAndPeers.modalities (R : RemoteModalityParameters M)
    (c : OrthancConfiguration M P) : Run (OrthancConfiguration M P) :=
  if c.json_.isMember DICOM_MODALITIES then
    ⟨{ c with modalities_ := (LoadModalitiesFromJson R (c.json_.get DICOM_MODALITIES)).state },
      (LoadModalitiesFromJson R (c.json_.get DICOM_MODALITIES)).thrown⟩
  else
    ⟨{ c with modalities_ := [] }, none⟩

/-- Second half of `LoadModalitiesAndPeers` (lines 279-287). -/
def LoadModalitiesAndPeers.peers (W : WebServiceParameters P)
    (c : OrthancConfiguration M P) : Run (OrthancConfiguration M P) :=
  if c.json_.isMember ORTHANC_PEERS then
    ⟨{ c with peers_ := (LoadPeersFromJson W (c.json_.get ORTHANC_PEERS)).state },
      (LoadPeersFromJson W (c.json_.get ORTHANC_PEERS)).thrown⟩
  else
    ⟨{ c with peers_ := [] }, none⟩

/-- `LoadModalitiesAndPeers` (lines 267-288): an exception of the first half
leaves the peers as they were. -/
def LoadModalitiesAndPeers (R : RemoteModalityParameters M) (W : WebServiceParameters P)
    (c : OrthancConfiguration M P) : Run (OrthancConfiguration M P) :=
  match LoadModalitiesAndPeers.modalities R c with
  | ⟨loaded, none⟩ => LoadModalitiesAndPeers.peers W loaded
  | ⟨loaded, some e⟩ => ⟨loaded, some e⟩

/-- `Read` (lines 407-444), where `found` is what the file system holds at
`configurationFile`.  The store keeps the path for `HasConfigurationChanged`;
the directories computed at lines 413-441 are not part of this model. -/
def Read (R : RemoteModalityParameters M) (W : WebServiceParameters P)
    (c : OrthancConfiguration M P) (found : ConfigurationPath) :
    Run (OrthancConfiguration M P) :=
  match ReadConfiguration found with
  | ⟨tree, none⟩ => LoadModalitiesAndPeers R W { c with json_ := tree }
  | ⟨tree, some e⟩ => ⟨{ c with json_ := tree }, some e⟩

/-- `HasConfigurationChanged` (lines 702-712), where `found` is what the file
system holds at `configurationFileArg_` at the time of the call and `write`
is the fast writer. -/
def HasConfigurationChanged (write : Json → String) (c : OrthancConfiguration M P)
    (found : ConfigurationPath) : Except ErrorCode Bool :=
  match ReadConfiguration found with
  | ⟨current, none⟩ => Except.ok (decide (write c.json_ ≠ write current))
  | ⟨_, some e⟩ => Except.error e

end OrthancConfiguration

/-! ## Sequences of calls -/

/-- The calls on the store that the properties range over. -/
inductive Operation (M P E : Type) where
  | GetStringParameter (parameter defaultValue : String)
  | GetIntegerParameter (parameter : String) (defaultValue : CInt)
  | GetUnsignedIntegerParameter (parameter : String) (defaultValue : Nat)
  | GetBooleanParameter (parameter : String) (defaultValue : Bool)
  | GetListOfStringsParameter (target : List String) (key : String)
  | GetDicomModalityUsingSymbolicName (name : String)
  | LookupOrthancPeer (name : String)
  | LookupDicomModalityUsingAETitle (aet : String)
  | IsSameAETitle (aet1 aet2 : String)
  | IsKnownAETitle (aet ip : String)
  | Format
  | UpdateModality (symbolicName : String) (modality : M)
  | RemoveModality (symbolicName : String)
  | UpdatePeer (symbolicName : String) (peer : P)
  | RemovePeer (symbolicName : String)
  | SetDefaultEncoding (encoding : E)

/-- The exception that ends a call with a result, if any. -/
def thrownBy {α : Type} : Except ErrorCode α → Option ErrorCode
  | Except.ok _ => none
  | Except.error e => some e

/-- The calls declared `const` in the class. -/
def Operation.isConst {M P E : Type} : Operation M P E → Bool
  | Operation.UpdateModality _ _ => false
  | Operation.RemoveModality _ => false
  | Operation.UpdatePeer _ _ => false
  | Operation.RemovePeer _ => false
  | Operation.SetDefaultEncoding _ => false
  | _ => true

/-- The effect of one call on the store.  A member function declared `const`
cannot write the store: what it leaves is the store it was called on. -/
def Operation.run {M P E : Type} (R : RemoteModalityParameters M)
    (W : WebServiceParameters P) (EnumerationToString : E → String)
    (other : Json → String) (c : OrthancConfiguration M P) :
    Operation M P E → Run (OrthancConfiguration M P)
  | Operation.GetStringParameter parameter defaultValue =>
    ⟨c, thrownBy (c.GetStringParameter parameter defaultValue)⟩
  | Operation.GetIntegerParameter parameter defaultValue =>
    ⟨c, thrownBy (c.GetIntegerParameter parameter defaultValue)⟩
  | Operation.GetUnsignedIntegerParameter parameter defaultValue =>
    ⟨c, thrownBy (c.GetUnsignedIntegerParameter parameter defaultValue)⟩
  | Operation.GetBooleanParameter parameter defaultValue =>
    ⟨c, thrownBy (c.GetBooleanParameter parameter defaultValue)⟩
  | Operation.GetListOfStringsParameter target key =>
    ⟨c, (c.GetListOfStringsParameter other target key).thrown⟩
  | Operation.GetDicomModalityUsingSymbolicName name =>
    ⟨c, thrownBy (c.GetDicomModalityUsingSymbolicName name)⟩
  | Operation.LookupOrthancPeer _ => ⟨c, none⟩
  | Operation.LookupDicomModalityUsingAETitle aet =>
    ⟨c, thrownBy (c.LookupDicomModalityUsingAETitle R aet)⟩
  | Operation.IsSameAETitle aet1 aet2 => ⟨c, thrownBy (c.IsSameAETitle aet1 aet2)⟩
  | Operation.IsKnownAETitle aet ip => ⟨c, thrownBy (c.IsKnownAETitle R aet ip)⟩
  | Operation.Format => ⟨c, none⟩
  | Operation.UpdateModality symbolicName modality => c.UpdateModality R symbolicName modality
  | Operation.RemoveModality symbolicName => c.RemoveModality R symbolicName
  | Operation.UpdatePeer symbolicName peer => c.UpdatePeer W symbolicName peer
  | Operation.RemovePeer symbolicName => c.RemovePeer W symbolicName
  | Operation.SetDefaultEncoding encoding => c.SetDefaultEncoding EnumerationToString encoding

/-- The stores reached from `start` by a sequence of calls, each on the store
that the call before it has left. -/
inductive Reached {M P E : Type} (R : RemoteModalityParameters M)
    (W : WebServiceParameters P) (EnumerationToString : E → String)
    (other : Json → String) (start : OrthancConfiguration M P) :
    OrthancConfiguration M P → Prop where
  | start : Reached R W EnumerationToString other start start
  | call (c : OrthancConfiguration M P) (op : Operation M P E) :
    Reached R W EnumerationToString other start c →
    Reached R W EnumerationToString other start
      (Operation.run R W EnumerationToString other c op).state

/-- The stores reached from `start` by a sequence of calls of `const` member
functions. -/
inductive ReachedByConst {M P E : Type} (R : RemoteModalityParameters M)
    (W : WebServiceParameters P) (EnumerationToString : E → String)
    (other : Json → String) (start : OrthancConfiguration M P) :
    OrthancConfiguration M P → Prop where
  | start : ReachedByConst R W EnumerationToString other start start
  | call (c : OrthancConfiguration M P) (op : Operation M P E) :
    op.isConst = true →
    ReachedByConst R W EnumerationToString other start c →
    ReachedByConst R W EnumerationToString other start
      (Operation.run R W EnumerationToString other c op).state

/-! ## Descriptor classes of the examples -/

/-- A modality descriptor for the examples: title, host and port. -/
structure ExampleModality where
  aet : String
  host : String
  port : Nat
  deriving DecidableEq

/-- A descriptor class for the examples, serialized as `[aet, host, port]`
with the port an unsigned integer; its `Unserialize` takes the port signed or
unsigned, throws `ParameterOutOfRange` on a negative port and `BadFileFormat`
on every other value that is not of this shape. -/
def exampleModalities : RemoteModalityParameters ExampleModality where
  GetApplicationEntityTitle := fun m => m.aet
  GetHost := fun m => m.host
  Serialize := fun m =>
    Json.arrayValue [Json.stringValue m.aet, Json.stringValue m.host, Json.uintValue m.port]
  Unserialize := fun j =>
    match j with
    | Json.arrayValue [Json.stringValue aet, Json.stringValue host, Json.uintValue port] =>
      Except.ok ⟨aet, host, port⟩
    | Json.arrayValue [Json.stringValue aet, Json.stringValue host, Json.intValue port] =>
      if port.val < 0 then Except.error ErrorCode.ParameterOutOfRange
      else Except.ok ⟨aet, host, port.val.toNat⟩
    | _ => Except.error ErrorCode.BadFileFormat

/-- A descriptor class for the examples: a peer is its URL, serialized as a
string; the certificate check rejects the empty URL. -/
def examplePeers : WebServiceParameters String where
  Serialize := fun url => Json.stringValue url
  Unserialize := fun j =>
    match j with
    | Json.stringValue url => Except.ok url
    | _ => Except.error ErrorCode.BadFileFormat
  CheckClientCertificate := fun url =>
    if url = "" then Except.error ErrorCode.BadFileFormat else Except.ok ()

/-- The store that `Read` leaves when no configuration is given to a
standalone build: the empty tree and two empty registries. -/
def emptyConfiguration : OrthancConfiguration ExampleModality String :=
  ⟨Json.objectValue [], [], []⟩

/-- A store for the examples: host checking on, one modality `ECHO` at
`10.0.0.1`. -/
def exampleStore : OrthancConfiguration ExampleModality String :=
  ⟨Json.objectValue [("DicomCheckModalityHost", Json.booleanValue true)],
    [("sample", ⟨"ECHO", "10.0.0.1", 104⟩)], []⟩

/-- A store for the examples: two modalities with the same AET up to case. -/
def twoModalitiesStore : OrthancConfiguration ExampleModality String :=
  ⟨Json.objectValue [],
    [("archive", ⟨"ECHO", "10.0.0.1", 104⟩), ("backup", ⟨"echo", "10.0.0.2", 104⟩)], []⟩

/-- A store for the examples: a section of modalities that is not an object,
a section of two peers, and registries left over from before. -/
def staleStore : OrthancConfiguration ExampleModality String :=
  ⟨Json.objectValue
      [("DicomModalities", Json.stringValue "none"),
       ("OrthancPeers", Json.objectValue
          [("peer-1", Json.stringValue "http://10.0.0.2:8042/"),
           ("peer-2", Json.stringValue "http://10.0.0.3:8042/")])],
    [("old", ⟨"OLD", "10.0.0.7", 104⟩)], [("old-peer", "http://10.0.0.8:8042/")]⟩

/-- A store for the examples: no section of modalities, a section of two
peers, and registries left over from before. -/
def stalePeersStore : OrthancConfiguration ExampleModality String :=
  ⟨Json.objectValue
      [("OrthancPeers", Json.objectValue
          [("peer-1", Json.stringValue "http://10.0.0.2:8042/"),
           ("peer-2", Json.stringValue "http://10.0.0.3:8042/")])],
    [("old", ⟨"OLD", "10.0.0.7", 104⟩)], [("old-peer", "http://10.0.0.8:8042/")]⟩

/-- A store for the examples: a section of one modality and a section of one
peer, and registries left over from before. -/
def loadableStore : OrthancConfiguration ExampleModality String :=
  ⟨Json.objectValue
      [("DicomModalities", Json.objectValue
          [("sample", Json.arrayValue
            [Json.stringValue "ECHO", Json.stringValue "10.0.0.1", Json.intValue 104])]),
       ("OrthancPeers", Json.objectValue
          [("peer-1", Json.stringValue "http://10.0.0.2:8042/")])],
    [("old", ⟨"OLD", "10.0.0.7", 104⟩)], [("old-peer", "http://10.0.0.8:8042/")]⟩

/-- The registries own the names of their sections: the member names of the
section `"DicomModalities"` of the tree are the keys of the registry of the
modalities, those of `"OrthancPeers"` the keys of the registry of the peers;
an absent section has no member name. -/
def OrthancConfiguration.Synchronized {M P : Type} (c : OrthancConfiguration M P) : Prop :=
  (∀ k, k ∈ (c.json_.get DICOM_MODALITIES).getMemberNames ↔ k ∈ StdMap.keys c.modalities_) ∧
  (∀ k, k ∈ (c.json_.get ORTHANC_PEERS).getMemberNames ↔ k ∈ StdMap.keys c.peers_)

mutual
/-- A fast writer for the examples: compact JSON text, every member and every
item followed by a comma. -/
def exampleWriter : Json → String
  | Json.nullValue => "null"
  | Json.intValue v => toString v.val
  | Json.uintValue v => toString v
  | Json.realValue bits => toString bits
  | Json.stringValue s => "\"" ++ s ++ "\""
  | Json.booleanValue b => if b then "true" else "false"
  | Json.arrayValue items => "[" ++ exampleWriter.items items ++ "]"
  | Json.objectValue members => "\x7b" ++ exampleWriter.members members ++ "\x7d"
/-- The items of an array, for `exampleWriter`. -/
def exampleWriter.items : List Json → String
  | [] => ""
  | item :: rest => exampleWriter item ++ "," ++ exampleWriter.items rest
/-- The members of an object, for `exampleWriter`. -/
def exampleWriter.members : List (String × Json) → String
  | [] => ""
  | (name, value) :: rest =>
    "\"" ++ name ++ "\":" ++ exampleWriter value ++ "," ++ exampleWriter.members rest
end

/-- A configuration file for the examples, with one modality. -/
def exampleFile : ConfigurationPath :=
  ConfigurationPath.file (Except.ok (Json.objectValue
    [("DicomModalities", Json.objectValue
        [("sample", Json.arrayValue
          [Json.stringValue "ECHO", Json.stringValue "10.0.0.1", Json.intValue 104])]),
     ("Name", Json.stringValue "Orthanc")]))

/-- The configuration file of the examples once the modality `pacs` has been
written into it. -/
def exampleFileEdited : ConfigurationPath :=
  ConfigurationPath.file (Except.ok (Json.objectValue
    [("DicomModalities", Json.objectValue
        [("pacs", Json.arrayValue
          [Json.stringValue "PACS", Json.stringValue "10.0.0.4", Json.intValue 4242]),
         ("sample", Json.arrayValue
          [Json.stringValue "ECHO", Json.stringValue "10.0.0.1", Json.intValue 104])]),
     ("Name", Json.stringValue "Orthanc")]))

/-- A store for the examples: the two modalities of `twoModalitiesStore`,
with the strict comparison of AETs switched on. -/
def strictStore : OrthancConfiguration ExampleModality String :=
  ⟨Json.objectValue [("StrictAetComparison", Json.booleanValue true)],
    [("archive", ⟨"ECHO", "10.0.0.1", 104⟩), ("backup", ⟨"echo", "10.0.0.2", 104⟩)], []⟩

/-! # Properties

## The order of the keys -/

theorem lexLess_irrefl (a : List Char) : lexLess a a = false := by
  induction a with
  | nil => rfl
  | cons x xs ih => simp [lexLess, ih]

theorem lexLess_trans : ∀ (a b c : List Char),
    lexLess a b = true → lexLess b c = true → lexLess a c = true
  | [], [], _, h, _ => by simp [lexLess] at h
  | [], _ :: _, [], _, h => by simp [lexLess] at h
  | [], _ :: _, _ :: _, _, _ => by simp [lexLess]
  | _ :: _, [], _, h, _ => by simp [lexLess] at h
  | _ :: _, _ :: _, [], _, h => by simp [lexLess] at h
  | x :: xs, y :: ys, z :: zs, h1, h2 => by
    have ih := lexLess_trans xs ys zs
    simp only [lexLess] at h1 h2 ⊢
    split_ifs at h1 h2 ⊢ <;> first | rfl | omega | exact ih h1 h2

theorem lexLess_total : ∀ (a b : List Char),
    lexLess a b = false → lexLess b a = false → a = b
  | [], [], _, _ => rfl
  | [], _ :: _, h, _ => by simp [lexLess] at h
  | _ :: _, [], _, h => by simp [lexLess] at h
  | x :: xs, y :: ys, h1, h2 => by
    have ih := lexLess_total xs ys
    simp only [lexLess] at h1 h2
    by_cases h3 : x.toNat < y.toNat
    · simp [h3] at h1
    · by_cases h4 : y.toNat < x.toNat
      · simp [h4] at h2
      · simp only [h3, h4, if_false] at h1 h2
        have hxy : x = y := by
          apply Char.ext
          apply UInt32.ext
          have : x.toNat = y.toNat := by omega
          exact this
        rw [hxy, ih h1 h2]

theorem stringLess_irrefl (a : String) : stringLess a a = false :=
  lexLess_irrefl a.data

theorem stringLess_trans {a b c : String} (h1 : stringLess a b = true)
    (h2 : stringLess b c = true) : stringLess a c = true :=
  lexLess_trans a.data b.data c.data h1 h2

theorem stringLess_total {a b : String} (h1 : stringLess a b = false)
    (h2 : stringLess b a = false) : a = b :=
  String.ext (lexLess_total a.data b.data h1 h2)

theorem stringLess_ne {a b : String} (h : stringLess a b = true) : a ≠ b := by
  intro hab
  rw [hab, stringLess_irrefl] at h
  exact Bool.false_ne_true h

theorem stringLess_asymm {a b : String} (h : stringLess a b = true) :
    stringLess b a = false := by
  cases hba : stringLess b a with
  | false => rfl
  | true =>
    have := stringLess_trans h hba
    rw [stringLess_irrefl] at this
    exact this.symm

/-! ## Sorted maps -/

namespace StdMap

variable {V : Type}

theorem find_insert_self (k : String) (v : V) (m : List (String × V)) :
    find k (insert k v m) = some v := by
  induction m with
  | nil => simp [insert, find]
  | cons e rest ih =>
    obtain ⟨k', v'⟩ := e
    simp only [insert]
    split_ifs with h1 h2
    · simp [find]
    · simp [find, stringLess_ne h2, ih]
    · simp [find]

theorem find_insert_ne {k k' : String} (h : k' ≠ k) (v : V) (m : List (String × V)) :
    find k' (insert k v m) = find k' m := by
  induction m with
  | nil => simp [insert, find, h.symm]
  | cons e rest ih =>
    obtain ⟨k2, v2⟩ := e
    simp only [insert]
    split_ifs with h1 h2
    · simp [find, h.symm]
    · simp [find, ih]
    · have hk : k = k2 := stringLess_total (by simpa using h1) (by simpa using h2)
      subst hk
      simp [find, h.symm]

theorem find_isSome_iff (k : String) (m : List (String × V)) :
    (find k m).isSome = true ↔ k ∈ keys m := by
  induction m with
  | nil => simp [find, keys]
  | cons e rest ih =>
    obtain ⟨k', v'⟩ := e
    by_cases h : k' = k
    · simp [find, keys, h]
    · have h' : ¬ k = k' := fun hk => h hk.symm
      simpa [find, keys, h, h'] using ih

theorem find_eq_none_iff (k : String) (m : List (String × V)) :
    find k m = none ↔ k ∉ keys m := by
  rw [← find_isSome_iff]
  cases find k m <;> simp

theorem mem_keys_insert (k k' : String) (v : V) (m : List (String × V)) :
    k' ∈ keys (insert k v m) ↔ k' = k ∨ k' ∈ keys m := by
  rw [← find_isSome_iff, ← find_isSome_iff]
  by_cases h : k' = k
  · subst h
    simp [find_insert_self]
  · simp [find_insert_ne h, h]

theorem ordered_cons (k : String) (v : V) (m : List (String × V)) :
    Ordered ((k, v) :: m) ↔ (∀ k' ∈ keys m, stringLess k k' = true) ∧ Ordered m := by
  simp [Ordered, keys]

theorem ordered_insert (k : String) (v : V) (m : List (String × V)) (h : Ordered m) :
    Ordered (insert k v m) := by
  induction m with
  | nil => simp [insert, Ordered, keys]
  | cons e rest ih =>
    obtain ⟨k2, v2⟩ := e
    rw [ordered_cons] at h
    simp only [insert]
    split_ifs with h1 h2
    · rw [ordered_cons]
      refine ⟨?_, (ordered_cons k2 v2 rest).2 h⟩
      intro k' hk'
      simp only [keys, List.map_cons, List.mem_cons] at hk'
      rcases hk' with hk' | hk'
      · rw [hk']; exact h1
      · exact stringLess_trans h1 (h.1 k' hk')
    · rw [ordered_cons]
      refine ⟨?_, ih h.2⟩
      intro k' hk'
      rcases (mem_keys_insert k k' v rest).1 hk' with hk' | hk'
      · rw [hk']; exact h2
      · exact h.1 k' hk'
    · have hk : k = k2 := stringLess_total (by simpa using h1) (by simpa using h2)
      subst hk
      rw [ordered_cons]
      exact h

theorem insert_last (k : String) (v : V) (m : List (String × V))
    (h : ∀ k' ∈ keys m, stringLess k' k = true) : insert k v m = m ++ [(k, v)] := by
  induction m with
  | nil => rfl
  | cons e rest ih =>
    obtain ⟨k2, v2⟩ := e
    have h2 : stringLess k2 k = true := h k2 (by simp [keys])
    have h1 : stringLess k k2 = false := stringLess_asymm h2
    have hrest : ∀ k' ∈ keys rest, stringLess k' k = true := by
      intro k' hk'
      exact h k' (by simp only [keys, List.map_cons, List.mem_cons]; exact Or.inr hk')
    simp [insert, h1, h2, ih hrest]

theorem find_of_mem (k : String) (v : V) (m : List (String × V)) (h : Ordered m)
    (hmem : (k, v) ∈ m) : find k m = some v := by
  induction m with
  | nil => simp at hmem
  | cons e rest ih =>
    obtain ⟨k2, v2⟩ := e
    rw [ordered_cons] at h
    rcases List.mem_cons.1 hmem with heq | hin
    · cases heq
      simp [find]
    · have hk : k ∈ keys rest := List.mem_map.2 ⟨(k, v), hin, rfl⟩
      have hne : k2 ≠ k := stringLess_ne (h.1 k hk)
      simp [find, hne, ih h.2 hin]

theorem ordered_ext : ∀ (m1 m2 : List (String × V)), Ordered m1 → Ordered m2 →
    (∀ k, find k m1 = find k m2) → m1 = m2
  | [], [], _, _, _ => rfl
  | [], (k2, v2) :: _, _, _, h => by
    have := h k2
    simp [find] at this
  | (k1, v1) :: _, [], _, _, h => by
    have := h k1
    simp [find] at this
  | (k1, v1) :: r1, (k2, v2) :: r2, h1, h2, h => by
    rw [ordered_cons] at h1 h2
    have hk : k1 = k2 := by
      by_contra hne
      have e1 := h k1
      have e2 := h k2
      simp only [find, if_true] at e1 e2
      rw [if_neg (fun hh => hne hh.symm)] at e1
      rw [if_neg hne] at e2
      have m1 : k1 ∈ keys r2 := (find_isSome_iff k1 r2).1 (by rw [← e1]; rfl)
      have m2 : k2 ∈ keys r1 := (find_isSome_iff k2 r1).1 (by rw [e2]; rfl)
      have l1 := h2.1 k1 m1
      have l2 := h1.1 k2 m2
      have := stringLess_asymm l1
      rw [l2] at this
      exact Bool.noConfusion this
    subst hk
    have hv : v1 = v2 := by
      have e1 := h k1
      simp only [find, if_true] at e1
      exact Option.some.inj e1
    subst hv
    have hrest : r1 = r2 := by
      apply ordered_ext r1 r2 h1.2 h2.2
      intro k
      by_cases hkk : k1 = k
      · subst hkk
        have n1 : find k1 r1 = none := (find_eq_none_iff k1 r1).2
          (fun hm => by have := h1.1 k1 hm; rw [stringLess_irrefl] at this; exact Bool.noConfusion this)
        have n2 : find k1 r2 = none := (find_eq_none_iff k1 r2).2
          (fun hm => by have := h2.1 k1 hm; rw [stringLess_irrefl] at this; exact Bool.noConfusion this)
        rw [n1, n2]
      · have := h k
        simpa [find, hkk] using this
    rw [hrest]

end StdMap

/-! ## JSON objects -/

namespace Json

theorem members_objectValue (ms : List (String × Json)) :
    (Json.objectValue ms).members = ms := rfl

theorem isMember_iff (j : Json) (k : String) :
    j.isMember k = true ↔ k ∈ j.getMemberNames := by
  simp [isMember, getMemberNames, StdMap.find_isSome_iff]

theorem isMember_set (j : Json) (k k' : String) (v : Json) :
    (j.set k v).isMember k' = (decide (k' = k) || j.isMember k') := by
  by_cases h : k' = k
  · subst h
    simp [isMember, set, members, StdMap.find_insert_self]
  · simp [isMember, set, members, StdMap.find_insert_ne h, h]

theorem find_set (j : Json) (k k' : String) (v : Json) :
    StdMap.find k' (j.set k v).members =
      if k' = k then some v else StdMap.find k' j.members := by
  by_cases h : k' = k
  · subst h
    simp [set, members, StdMap.find_insert_self]
  · simp [set, members, StdMap.find_insert_ne h, h]

theorem ordered_set (j : Json) (k : String) (v : Json) (h : j.Ordered) :
    (j.set k v).Ordered :=
  StdMap.ordered_insert k v j.members h

end Json

/-! ## Merging configuration fragments -/

theorem AddFileToConfiguration.loop_disjoint (config : Json) :
    ∀ (names : List String) (target : Json), names.Nodup →
      (∀ n ∈ names, target.isMember n = false) →
      (AddFileToConfiguration.loop config names target).thrown = none ∧
      (∀ k, StdMap.find k (AddFileToConfiguration.loop config names target).state.members =
        if k ∈ names then some (config.get k) else StdMap.find k target.members) ∧
      (target.Ordered → (AddFileToConfiguration.loop config names target).state.Ordered) ∧
      (target.isObject = true →
        (AddFileToConfiguration.loop config names target).state.isObject = true)
  | [], target, _, _ => by simp [AddFileToConfiguration.loop]
  | n :: rest, target, hnd, hnew => by
    have hn : target.isMember n = false := hnew n (List.mem_cons_self n rest)
    rw [List.nodup_cons] at hnd
    have hrest : ∀ m ∈ rest, (target.set n (config.get n)).isMember m = false := by
      intro m hm
      have hmn : m ≠ n := fun h => hnd.1 (h ▸ hm)
      rw [Json.isMember_set]
      simp [hmn, hnew m (List.mem_cons_of_mem n hm)]
    have ih := AddFileToConfiguration.loop_disjoint config rest
      (target.set n (config.get n)) hnd.2 hrest
    simp only [AddFileToConfiguration.loop, hn, Bool.false_eq_true, if_false]
    refine ⟨ih.1, ?_, ?_, ?_⟩
    · intro k
      rw [ih.2.1 k, Json.find_set]
      by_cases hk : k ∈ rest
      · simp [hk]
      · by_cases hkn : k = n
        · subst hkn
          simp
        · simp [hk, hkn]
    · intro ho
      exact ih.2.2.1 (Json.ordered_set target n _ ho)
    · intro _
      exact ih.2.2.2 rfl

theorem AddFileToConfiguration.loop_conflict (config : Json) :
    ∀ (names : List String) (target : Json),
      (∃ n ∈ names, target.isMember n = true) →
      (AddFileToConfiguration.loop config names target).thrown = some ErrorCode.BadFileFormat
  | [], _, h => by
    obtain ⟨n, hn, _⟩ := h
    simp at hn
  | n :: rest, target, h => by
    by_cases hn : target.isMember n = true
    · simp [AddFileToConfiguration.loop, hn]
    · simp only [AddFileToConfiguration.loop, hn, if_false]
      apply AddFileToConfiguration.loop_conflict config rest
      obtain ⟨m, hm, hmt⟩ := h
      rcases List.mem_cons.1 hm with hmn | hmr
      · subst hmn
        exact absurd hmt hn
      · exact ⟨m, hmr, by rw [Json.isMember_set, hmt, Bool.or_true]⟩

theorem StdMap.nodup_keys {V : Type} (m : List (String × V)) (h : StdMap.Ordered m) :
    (StdMap.keys m).Nodup :=
  List.Pairwise.imp (fun hab => stringLess_ne hab) h

/-- Merge of one fragment into a tree with which it shares no key. -/
theorem AddFileToConfiguration.disjoint (a b : List (String × Json))
    (ha : StdMap.Ordered a) (hb : StdMap.Ordered b)
    (hdisj : ∀ k, k ∈ StdMap.keys b → k ∉ StdMap.keys a) :
    (AddFileToConfiguration (Json.objectValue a) (Json.objectValue b)).thrown = none ∧
    (∀ k, StdMap.find k
        (AddFileToConfiguration (Json.objectValue a) (Json.objectValue b)).state.members =
      if k ∈ StdMap.keys b then StdMap.find k b else StdMap.find k a) ∧
    (AddFileToConfiguration (Json.objectValue a) (Json.objectValue b)).state.Ordered ∧
    (AddFileToConfiguration (Json.objectValue a) (Json.objectValue b)).state.isObject = true := by
  by_cases hsz : (Json.objectValue a).size = 0
  · have ha0 : a = [] := by simpa [Json.size] using hsz
    subst ha0
    have hrun : AddFileToConfiguration (Json.objectValue []) (Json.objectValue b) =
        ⟨Json.objectValue b, none⟩ := rfl
    rw [hrun]
    refine ⟨rfl, ?_, hb, rfl⟩
    intro k
    by_cases hk : k ∈ StdMap.keys b
    · simp [hk, Json.members]
    · simp [hk, Json.members, StdMap.find, (StdMap.find_eq_none_iff k b).2 hk]
  · have hnew : ∀ n ∈ (Json.objectValue b).getMemberNames,
        (Json.objectValue a).isMember n = false := by
      intro n hn
      have hna : ¬ (Json.objectValue a).isMember n = true := fun hm =>
        hdisj n hn ((Json.isMember_iff _ n).1 hm)
      simpa using hna
    have h := AddFileToConfiguration.loop_disjoint (Json.objectValue b)
      (Json.objectValue b).getMemberNames (Json.objectValue a)
      (StdMap.nodup_keys b hb) hnew
    simp only [AddFileToConfiguration, hsz, if_false]
    refine ⟨h.1, ?_, h.2.2.1 ha, h.2.2.2 rfl⟩
    intro k
    rw [h.2.1 k]
    by_cases hk : k ∈ StdMap.keys b
    · obtain ⟨v, hv⟩ := Option.isSome_iff_exists.1 ((StdMap.find_isSome_iff k b).2 hk)
      simp [Json.getMemberNames, Json.members, hk, Json.get, hv]
    · simp [Json.getMemberNames, Json.members, hk]

theorem ScanFolderForConfiguration.two (A B : Json) :
    ScanFolderForConfiguration (Json.objectValue []) [A, B] = AddFileToConfiguration A B := by
  have hrun : AddFileToConfiguration (Json.objectValue []) A = ⟨A, none⟩ := rfl
  simp only [ScanFolderForConfiguration, hrun]
  rcases AddFileToConfiguration A B with ⟨merged, _ | e⟩ <;> rfl

/-- C1: two fragments with disjoint top-level keys merge into the empty tree
in either order without error; both results have exactly the keys of the two
fragments, each key with the value of its fragment, and the two results are
the same tree. -/
theorem merge_disjoint_fragments (a b : List (String × Json))
    (ha : StdMap.Ordered a) (hb : StdMap.Ordered b)
    (hdisj : ∀ k, k ∈ StdMap.keys a → k ∉ StdMap.keys b) :
    (ScanFolderForConfiguration (Json.objectValue [])
      [Json.objectValue a, Json.objectValue b]).thrown = none ∧
    (ScanFolderForConfiguration (Json.objectValue [])
      [Json.objectValue b, Json.objectValue a]).thrown = none ∧
    (∀ k, (ScanFolderForConfiguration (Json.objectValue [])
        [Json.objectValue a, Json.objectValue b]).state.isMember k =
      ((Json.objectValue a).isMember k || (Json.objectValue b).isMember k)) ∧
    (∀ k, (ScanFolderForConfiguration (Json.objectValue [])
        [Json.objectValue b, Json.objectValue a]).state.isMember k =
      ((Json.objectValue a).isMember k || (Json.objectValue b).isMember k)) ∧
    (∀ k, (Json.objectValue a).isMember k = true →
      (ScanFolderForConfiguration (Json.objectValue [])
        [Json.objectValue a, Json.objectValue b]).state.get k = (Json.objectValue a).get k ∧
      (ScanFolderForConfiguration (Json.objectValue [])
        [Json.objectValue b, Json.objectValue a]).state.get k = (Json.objectValue a).get k) ∧
    (∀ k, (Json.objectValue b).isMember k = true →
      (ScanFolderForConfiguration (Json.objectValue [])
        [Json.objectValue a, Json.objectValue b]).state.get k = (Json.objectValue b).get k ∧
      (ScanFolderForConfiguration (Json.objectValue [])
        [Json.objectValue b, Json.objectValue a]).state.get k = (Json.objectValue b).get k) ∧
    (ScanFolderForConfiguration (Json.objectValue [])
        [Json.objectValue a, Json.objectValue b]).state =
      (ScanFolderForConfiguration (Json.objectValue [])
        [Json.objectValue b, Json.objectValue a]).state := by
  have hdisj' : ∀ k, k ∈ StdMap.keys b → k ∉ StdMap.keys a := fun k hkb hka => hdisj k hka hkb
  obtain ⟨ab1, ab2, ab3, ab4⟩ := AddFileToConfiguration.disjoint a b ha hb hdisj'
  obtain ⟨ba1, ba2, ba3, ba4⟩ := AddFileToConfiguration.disjoint b a hb ha hdisj
  rw [ScanFolderForConfiguration.two, ScanFolderForConfiguration.two]
  have fab : ∀ k, StdMap.find k
      (AddFileToConfiguration (Json.objectValue a) (Json.objectValue b)).state.members =
      if k ∈ StdMap.keys a then StdMap.find k a else StdMap.find k b := by
    intro k
    rw [ab2 k]
    by_cases hka : k ∈ StdMap.keys a
    · simp [hka, hdisj k hka]
    · by_cases hkb : k ∈ StdMap.keys b
      · simp [hka, hkb]
      · simp [hka, hkb, (StdMap.find_eq_none_iff k a).2 hka, (StdMap.find_eq_none_iff k b).2 hkb]
  have hmem : ∀ k, (StdMap.find k a).isSome = true ↔ k ∈ StdMap.keys a :=
    fun k => StdMap.find_isSome_iff k a
  have hmemb : ∀ k, (StdMap.find k b).isSome = true ↔ k ∈ StdMap.keys b :=
    fun k => StdMap.find_isSome_iff k b
  refine ⟨ab1, ba1, ?_, ?_, ?_, ?_, ?_⟩
  · intro k
    simp only [Json.isMember, fab k, Json.members_objectValue]
    by_cases hka : k ∈ StdMap.keys a
    · simp [hka, (hmem k).2 hka]
    · simp [hka, (StdMap.find_eq_none_iff k a).2 hka]
  · intro k
    simp only [Json.isMember, ba2 k, Json.members_objectValue]
    by_cases hka : k ∈ StdMap.keys a
    · simp [hka, (hmem k).2 hka]
    · simp [hka, (StdMap.find_eq_none_iff k a).2 hka]
  · intro k hk
    have hka : k ∈ StdMap.keys a := (hmem k).1 hk
    simp only [Json.get, fab k, ba2 k, Json.members_objectValue]
    simp [hka]
  · intro k hk
    have hkb : k ∈ StdMap.keys b := (hmemb k).1 hk
    have hka : k ∉ StdMap.keys a := hdisj' k hkb
    simp only [Json.get, fab k, ba2 k, Json.members_objectValue]
    simp [hka]
  · have hobj : ∀ j : Json, j.isObject = true → j = Json.objectValue j.members := by
      intro j hj
      cases j <;> simp_all [Json.isObject, Json.members]
    rw [hobj _ ab4, hobj _ ba4]
    congr 1
    apply StdMap.ordered_ext _ _ ab3 ba3
    intro k
    rw [fab k, ba2 k]

/-- Witness of C1: the fragments `{"A":1}` and `{"B":2}` merge to
`{"A":1,"B":2}` in both orders. -/
theorem merge_disjoint_fragments_witness :
    (ScanFolderForConfiguration (Json.objectValue [])
      [Json.objectValue [("A", Json.intValue 1)], Json.objectValue [("B", Json.intValue 2)]]).thrown
      = none ∧
    (ScanFolderForConfiguration (Json.objectValue [])
      [Json.objectValue [("A", Json.intValue 1)], Json.objectValue [("B", Json.intValue 2)]]).state
      = Json.objectValue [("A", Json.intValue 1), ("B", Json.intValue 2)] ∧
    (ScanFolderForConfiguration (Json.objectValue [])
      [Json.objectValue [("B", Json.intValue 2)], Json.objectValue [("A", Json.intValue 1)]]).state
      = Json.objectValue [("A", Json.intValue 1), ("B", Json.intValue 2)] :=
  have h := merge_disjoint_fragments [("A", Json.intValue 1)] [("B", Json.intValue 2)]
    (by decide) (by decide) (by decide)
  ⟨h.1, rfl, h.2.2.2.2.2.2 ▸ rfl⟩

/-- C2: two fragments that share a top-level key fail to merge into the empty
tree with `BadFileFormat`, whichever is merged first. -/
theorem merge_shared_key_fails (a b : List (String × Json)) (k : String)
    (hka : (Json.objectValue a).isMember k = true)
    (hkb : (Json.objectValue b).isMember k = true) :
    (ScanFolderForConfiguration (Json.objectValue [])
      [Json.objectValue a, Json.objectValue b]).thrown = some ErrorCode.BadFileFormat ∧
    (ScanFolderForConfiguration (Json.objectValue [])
      [Json.objectValue b, Json.objectValue a]).thrown = some ErrorCode.BadFileFormat := by
  have key : ∀ x y : List (String × Json), (Json.objectValue x).isMember k = true →
      (Json.objectValue y).isMember k = true →
      (AddFileToConfiguration (Json.objectValue x) (Json.objectValue y)).thrown =
        some ErrorCode.BadFileFormat := by
    intro x y hx hy
    have hsz : ¬ (Json.objectValue x).size = 0 := by
      intro h0
      have hx0 : x = [] := by simpa [Json.size] using h0
      subst hx0
      simp [Json.isMember, Json.members, StdMap.find] at hx
    simp only [AddFileToConfiguration, hsz, if_false]
    exact AddFileToConfiguration.loop_conflict _ _ _ ⟨k, (Json.isMember_iff _ k).1 hy, hx⟩
  rw [ScanFolderForConfiguration.two, ScanFolderForConfiguration.two]
  exact ⟨key a b hka hkb, key b a hkb hka⟩

/-- Witness of C2: the fragments `{"X":1}` and `{"X":2}`. -/
theorem merge_shared_key_fails_witness :
    (ScanFolderForConfiguration (Json.objectValue [])
      [Json.objectValue [("X", Json.intValue 1)], Json.objectValue [("X", Json.intValue 2)]]).thrown
      = some ErrorCode.BadFileFormat ∧
    (ScanFolderForConfiguration (Json.objectValue [])
      [Json.objectValue [("X", Json.intValue 2)], Json.objectValue [("X", Json.intValue 1)]]).thrown
      = some ErrorCode.BadFileFormat :=
  merge_shared_key_fails [("X", Json.intValue 1)] [("X", Json.intValue 2)] "X"
    (by decide) (by decide)

/-! ## Typed parameter getters -/

namespace OrthancConfiguration

variable {M P : Type}

/-- C3: each of the string, integer and Boolean getters returns the supplied
default when the key is absent, fails with `BadParameterType` when the key is
present with a value of another JSON type, and returns the stored value when
the key is present with the expected type.  For the integer getter the
default, the stored value and the result are C++ `int`s. -/
theorem typed_getters (c : OrthancConfiguration M P) (key : String) :
    (c.json_.isMember key = false →
      (∀ d, c.GetStringParameter key d = Except.ok d) ∧
      (∀ d, c.GetIntegerParameter key d = Except.ok d) ∧
      (∀ d, c.GetBooleanParameter key d = Except.ok d)) ∧
    (c.json_.isMember key = true →
      ((c.json_.get key).isString = false →
        ∀ d, c.GetStringParameter key d = Except.error ErrorCode.BadParameterType) ∧
      ((c.json_.get key).isInt = false →
        ∀ d, c.GetIntegerParameter key d = Except.error ErrorCode.BadParameterType) ∧
      ((c.json_.get key).isBoolean = false →
        ∀ d, c.GetBooleanParameter key d = Except.error ErrorCode.BadParameterType) ∧
      (∀ s, c.json_.get key = Json.stringValue s →
        ∀ d, c.GetStringParameter key d = Except.ok s) ∧
      (∀ v, c.json_.get key = Json.intValue v →
        ∀ d, c.GetIntegerParameter key d = Except.ok v) ∧
      (∀ b, c.json_.get key = Json.booleanValue b →
        ∀ d, c.GetBooleanParameter key d = Except.ok b)) := by
  refine ⟨fun habs => ?_, fun hpres => ?_⟩
  · simp [GetStringParameter, GetIntegerParameter, GetBooleanParameter, habs]
  · refine ⟨?_, ?_, ?_, ?_, ?_, ?_⟩
    · intro ht d
      simp only [GetStringParameter, hpres, if_true]
      cases hv : c.json_.get key <;> simp_all [Json.isString]
    · intro ht d
      simp only [GetIntegerParameter, hpres, if_true]
      cases hv : c.json_.get key <;> simp_all [Json.isInt]
    · intro ht d
      simp only [GetBooleanParameter, hpres, if_true]
      cases hv : c.json_.get key <;> simp_all [Json.isBoolean]
    · intro s hs d
      simp [GetStringParameter, hpres, hs]
    · intro v hv d
      simp [GetIntegerParameter, hpres, hv]
    · intro b hb d
      simp [GetBooleanParameter, hpres, hb]

/-- Witness of C3: `GetIntegerParameter("Timeout", 30)` on a tree without
`"Timeout"` returns 30; on a tree where `"Timeout"` is a string it fails. -/
theorem typed_getters_witness :
    GetIntegerParameter (M := Unit) (P := Unit)
        ⟨Json.objectValue [("Name", Json.stringValue "Orthanc")], [], []⟩ "Timeout" 30
      = Except.ok 30 ∧
    GetIntegerParameter (M := Unit) (P := Unit)
        ⟨Json.objectValue [("Timeout", Json.stringValue "30")], [], []⟩ "Timeout" 30
      = Except.error ErrorCode.BadParameterType ∧
    GetIntegerParameter (M := Unit) (P := Unit)
        ⟨Json.objectValue [("Timeout", Json.intValue 60)], [], []⟩ "Timeout" 30
      = Except.ok 60 :=
  ⟨((typed_getters (M := Unit) (P := Unit)
      ⟨Json.objectValue [("Name", Json.stringValue "Orthanc")], [], []⟩ "Timeout").1
      (by decide)).2.1 30,
   ((typed_getters (M := Unit) (P := Unit)
      ⟨Json.objectValue [("Timeout", Json.stringValue "30")], [], []⟩ "Timeout").2
      (by decide)).2.1 (by decide) 30,
   ((typed_getters (M := Unit) (P := Unit)
      ⟨Json.objectValue [("Timeout", Json.intValue 60)], [], []⟩ "Timeout").2
      (by decide)).2.2.2.2.1 60 rfl 30⟩

/-- C4: with the key absent, `GetUnsignedIntegerParameter` returns the
unsigned 32-bit default `d` only when `d < 2 ^ 31`; for every larger default
it fails with `ParameterOutOfRange`, the default having become negative in
the `int` that holds it. -/
theorem unsigned_default_above_int_max (c : OrthancConfiguration M P) (key : String)
    (d : Nat) (habs : c.json_.isMember key = false) (hd : d < 4294967296) :
    c.GetUnsignedIntegerParameter key d =
      if d < 2147483648 then Except.ok d else Except.error ErrorCode.ParameterOutOfRange := by
  have hmod : d % 4294967296 = d := Nat.mod_eq_of_lt hd
  simp only [GetUnsignedIntegerParameter, GetIntegerParameter, habs, Bool.false_eq_true,
    if_false, toInt, hmod]
  by_cases hlt : d < 2147483648
  · have hnn : ¬ ((d : Int) < 0) := by omega
    have hcast : toUnsigned (d : Int) = d := by
      unfold toUnsigned
      omega
    simp [hlt, hnn, hcast]
  · have hneg : (d : Int) - 4294967296 < 0 := by omega
    simp [hlt, hneg]

/-- Witness of C4: on the empty tree, the default `4294967295` is not
returned: the call fails with `ParameterOutOfRange`. -/
theorem unsigned_default_above_int_max_witness :
    GetUnsignedIntegerParameter (M := Unit) (P := Unit)
        ⟨Json.objectValue [], [], []⟩ "Timeout" 4294967295
      = Except.error ErrorCode.ParameterOutOfRange :=
  unsigned_default_above_int_max (M := Unit) (P := Unit)
    ⟨Json.objectValue [], [], []⟩ "Timeout" 4294967295 (by decide) (by decide)

/-- C5: with the key present, `GetUnsignedIntegerParameter` fails with
`ParameterOutOfRange` on an `int` `v < 0` and returns `v` on an `int`
`v ≥ 0`; it fails with `BadParameterType` on every value whose type is not
`intValue`, and so on an integer above `2 ^ 31 - 1`, which a `Json::Value`
holds as a `uintValue`: such an integer is not returned, though an
`unsigned int` can hold it. -/
theorem unsigned_getter_present (c : OrthancConfiguration M P) (key : String) (d : Nat)
    (hpres : c.json_.isMember key = true) :
    (∀ v : CInt, c.json_.get key = Json.intValue v → v.val < 0 →
      c.GetUnsignedIntegerParameter key d = Except.error ErrorCode.ParameterOutOfRange) ∧
    (∀ v : CInt, c.json_.get key = Json.intValue v → 0 ≤ v.val →
      c.GetUnsignedIntegerParameter key d = Except.ok v.val.toNat) ∧
    (∀ u : Nat, c.json_.get key = Json.uintValue u →
      c.GetUnsignedIntegerParameter key d = Except.error ErrorCode.BadParameterType) ∧
    ((c.json_.get key).isInt = false →
      c.GetUnsignedIntegerParameter key d = Except.error ErrorCode.BadParameterType) := by
  refine ⟨?_, ?_, ?_, ?_⟩
  · intro v hv hneg
    simp [GetUnsignedIntegerParameter, GetIntegerParameter, hpres, hv, hneg]
  · intro v hv h0
    have hnn : ¬ (v.val < 0) := by omega
    have hmax := v.inRange.2
    have hcast : toUnsigned v.val = v.val.toNat := by
      unfold toUnsigned
      omega
    simp [GetUnsignedIntegerParameter, GetIntegerParameter, hpres, hv, hnn, hcast]
  · intro u hu
    simp [GetUnsignedIntegerParameter, GetIntegerParameter, hpres, hu]
  · intro ht
    simp only [GetUnsignedIntegerParameter, GetIntegerParameter, hpres, if_true]
    cases hv : c.json_.get key <;> simp_all [Json.isInt]

/-- Witness of C5: a configured `3000000000` is not returned, the call fails
with `BadParameterType`; a configured `-1` fails with `ParameterOutOfRange`,
a configured `8042` is returned, a string fails with `BadParameterType`. -/
theorem unsigned_getter_present_witness :
    GetUnsignedIntegerParameter (M := Unit) (P := Unit)
        ⟨Json.objectValue [("MaximumStorageSize", Json.uintValue 3000000000)], [], []⟩
        "MaximumStorageSize" 0
      = Except.error ErrorCode.BadParameterType ∧
    GetUnsignedIntegerParameter (M := Unit) (P := Unit)
        ⟨Json.objectValue [("HttpPort", Json.intValue (-1))], [], []⟩ "HttpPort" 80
      = Except.error ErrorCode.ParameterOutOfRange ∧
    GetUnsignedIntegerParameter (M := Unit) (P := Unit)
        ⟨Json.objectValue [("HttpPort", Json.intValue 8042)], [], []⟩ "HttpPort" 80
      = Except.ok 8042 ∧
    GetUnsignedIntegerParameter (M := Unit) (P := Unit)
        ⟨Json.objectValue [("HttpPort", Json.stringValue "8042")], [], []⟩ "HttpPort" 80
      = Except.error ErrorCode.BadParameterType :=
  ⟨(unsigned_getter_present (M := Unit) (P := Unit)
      ⟨Json.objectValue [("MaximumStorageSize", Json.uintValue 3000000000)], [], []⟩
      "MaximumStorageSize" 0 (by decide)).2.2.1 3000000000 rfl,
   (unsigned_getter_present (M := Unit) (P := Unit)
      ⟨Json.objectValue [("HttpPort", Json.intValue (-1))], [], []⟩ "HttpPort" 80
      (by decide)).1 (-1) rfl (by decide),
   (unsigned_getter_present (M := Unit) (P := Unit)
      ⟨Json.objectValue [("HttpPort", Json.intValue 8042)], [], []⟩ "HttpPort" 80
      (by decide)).2.1 8042 rfl (by decide),
   (unsigned_getter_present (M := Unit) (P := Unit)
      ⟨Json.objectValue [("HttpPort", Json.stringValue "8042")], [], []⟩ "HttpPort" 80
      (by decide)).2.2.2 (by decide)⟩

/-- C8: `IsSameAETitle` compares the lower-cased titles when
`"StrictAetComparison"` is absent or `false`, and the titles themselves when
it is `true`. -/
theorem same_aet_policy (c : OrthancConfiguration M P) (a b : String) :
    (c.json_.isMember "StrictAetComparison" = false ∨
        c.json_.get "StrictAetComparison" = Json.booleanValue false →
      c.IsSameAETitle a b = Except.ok (decide (ToLowerCase a = ToLowerCase b))) ∧
    (c.json_.isMember "StrictAetComparison" = true →
      c.json_.get "StrictAetComparison" = Json.booleanValue true →
      c.IsSameAETitle a b = Except.ok (decide (a = b))) := by
  refine ⟨fun h => ?_, fun hpres htrue => ?_⟩
  · rcases h with habs | hfalse
    · simp [IsSameAETitle, GetBooleanParameter, habs]
    · by_cases hm : c.json_.isMember "StrictAetComparison" = true
      · simp [IsSameAETitle, GetBooleanParameter, hm, hfalse]
      · simp [IsSameAETitle, GetBooleanParameter, hm]
  · simp [IsSameAETitle, GetBooleanParameter, hpres, htrue]

/-- Witness of C8: `IsSameAETitle("ECHO", "echo")` is true by default and
false in strict mode. -/
theorem same_aet_policy_witness :
    IsSameAETitle (M := Unit) (P := Unit) ⟨Json.objectValue [], [], []⟩ "ECHO" "echo"
      = Except.ok true ∧
    IsSameAETitle (M := Unit) (P := Unit)
        ⟨Json.objectValue [("StrictAetComparison", Json.booleanValue true)], [], []⟩
        "ECHO" "echo"
      = Except.ok false :=
  ⟨(same_aet_policy (M := Unit) (P := Unit) ⟨Json.objectValue [], [], []⟩ "ECHO" "echo").1
      (Or.inl (by decide)),
   (same_aet_policy (M := Unit) (P := Unit)
      ⟨Json.objectValue [("StrictAetComparison", Json.booleanValue true)], [], []⟩
      "ECHO" "echo").2 (by decide) rfl⟩

end OrthancConfiguration

/-! ## Symbolic names -/

theorem CheckAlphanumeric.loop_ok_iff (l : List Char) :
    CheckAlphanumeric.loop l = Except.ok () ↔ ∀ ch ∈ l, isalnum ch = true ∨ ch = '-' := by
  induction l with
  | nil => simp [CheckAlphanumeric.loop]
  | cons x xs ih =>
    simp only [CheckAlphanumeric.loop, List.mem_cons, forall_eq_or_imp]
    by_cases hx : isalnum x = true
    · simp [hx, ih]
    · by_cases hd : x = '-'
      · simp [hd, ih]
      · simp [hx, hd]

theorem CheckAlphanumeric.loop_cases (l : List Char) :
    CheckAlphanumeric.loop l = Except.ok () ∨
      CheckAlphanumeric.loop l = Except.error ErrorCode.BadFileFormat := by
  induction l with
  | nil => simp [CheckAlphanumeric.loop]
  | cons x xs ih =>
    simp only [CheckAlphanumeric.loop]
    split_ifs
    · exact Or.inr rfl
    · exact ih

theorem CheckAlphanumeric.ok_iff (s : String) :
    CheckAlphanumeric s = Except.ok () ↔ IsSymbolicName s :=
  CheckAlphanumeric.loop_ok_iff s.data

theorem CheckAlphanumeric.ok_of_valid {s : String} (h : IsSymbolicName s) :
    CheckAlphanumeric s = Except.ok () :=
  (CheckAlphanumeric.ok_iff s).2 h

theorem CheckAlphanumeric.error_of_invalid {s : String} (h : ¬ IsSymbolicName s) :
    CheckAlphanumeric s = Except.error ErrorCode.BadFileFormat := by
  rcases CheckAlphanumeric.loop_cases s.data with hok | herr
  · exact absurd ((CheckAlphanumeric.ok_iff s).1 hok) h
  · exact herr

/-! ## Loading the registries -/

namespace OrthancConfiguration

variable {M P V : Type}

theorem modalities_loop_eq (R : RemoteModalityParameters M) (source : Json) :
    ∀ (names : List String) (registry : List (String × M)),
      LoadModalitiesFromJson.loop R source names registry =
        LoadLoop R.Unserialize source names registry
  | [], _ => rfl
  | name :: rest, registry => by
    simp only [LoadModalitiesFromJson.loop, LoadLoop]
    cases CheckAlphanumeric name with
    | error e => rfl
    | ok u =>
      cases R.Unserialize (source.get name) with
      | error e => rfl
      | ok item => exact modalities_loop_eq R source rest _

theorem peers_loop_eq (W : WebServiceParameters P) (source : Json) :
    ∀ (names : List String) (registry : List (String × P)),
      LoadPeersFromJson.loop W source names registry =
        LoadLoop W.Unserialize source names registry
  | [], _ => rfl
  | name :: rest, registry => by
    simp only [LoadPeersFromJson.loop, LoadLoop]
    cases CheckAlphanumeric name with
    | error e => rfl
    | ok u =>
      cases W.Unserialize (source.get name) with
      | error e => rfl
      | ok item => exact peers_loop_eq W source rest _

/-- The registry under construction stays sorted and holds valid names only. -/
theorem LoadLoop.invariant (u : Json → Except ErrorCode V) (source : Json) :
    ∀ (names : List String) (registry : List (String × V)),
      StdMap.Ordered registry → (∀ k ∈ StdMap.keys registry, IsSymbolicName k) →
      StdMap.Ordered (LoadLoop u source names registry).state ∧
      (∀ k ∈ StdMap.keys (LoadLoop u source names registry).state, IsSymbolicName k)
  | [], _, ho, hv => ⟨ho, hv⟩
  | name :: rest, registry, ho, hv => by
    simp only [LoadLoop]
    cases hc : CheckAlphanumeric name with
    | error e => exact ⟨ho, hv⟩
    | ok u0 =>
      cases hu : u (source.get name) with
      | error e => exact ⟨ho, hv⟩
      | ok item =>
        apply LoadLoop.invariant u source rest _ (StdMap.ordered_insert name item registry ho)
        intro k hk
        rcases (StdMap.mem_keys_insert name k item registry).1 hk with hk | hk
        · rw [hk]
          exact (CheckAlphanumeric.ok_iff name).1 hc
        · exact hv k hk

/-- How the loop ends: without error when every name is valid and every
member deserializes; else with `BadFileFormat` at an invalid name, or with
the error of the `Unserialize` of a member. -/
theorem LoadLoop.thrown_cases (u : Json → Except ErrorCode V) (source : Json) :
    ∀ (names : List String) (registry : List (String × V)),
      ((LoadLoop u source names registry).thrown = none ∧
        ∀ n ∈ names, IsSymbolicName n ∧ ∃ v, u (source.get n) = Except.ok v) ∨
      ((LoadLoop u source names registry).thrown = some ErrorCode.BadFileFormat ∧
        ∃ n ∈ names, ¬ IsSymbolicName n) ∨
      (∃ n ∈ names, IsSymbolicName n ∧ ∃ e, u (source.get n) = Except.error e ∧
        (LoadLoop u source names registry).thrown = some e)
  | [], _ => by simp [LoadLoop]
  | name :: rest, registry => by
    simp only [LoadLoop]
    by_cases hn : IsSymbolicName name
    · rw [CheckAlphanumeric.ok_of_valid hn]
      cases hu : u (source.get name) with
      | error e =>
        exact Or.inr (Or.inr ⟨name, List.mem_cons_self _ _, hn, e, hu, rfl⟩)
      | ok item =>
        rcases LoadLoop.thrown_cases u source rest (StdMap.insert name item registry) with
          h | h | h
        · refine Or.inl ⟨h.1, ?_⟩
          intro n hmem
          rcases List.mem_cons.1 hmem with h1 | h1
          · rw [h1]; exact ⟨hn, item, hu⟩
          · exact h.2 n h1
        · obtain ⟨ht, n, hmem, hbad⟩ := h
          exact Or.inr (Or.inl ⟨ht, n, List.mem_cons_of_mem _ hmem, hbad⟩)
        · obtain ⟨n, hmem, hvalid, e, he, ht⟩ := h
          exact Or.inr (Or.inr ⟨n, List.mem_cons_of_mem _ hmem, hvalid, e, he, ht⟩)
    · rw [CheckAlphanumeric.error_of_invalid hn]
      exact Or.inr (Or.inl ⟨rfl, name, List.mem_cons_self _ _, hn⟩)

/-- The loop ends with `BadFileFormat` at the first invalid name when no
member before it fails to deserialize with another error. -/
theorem LoadLoop.thrown_at_invalid (u : Json → Except ErrorCode V) (source : Json)
    (bad : String) (post : List String) (hbad : ¬ IsSymbolicName bad) :
    ∀ (pre : List String) (registry : List (String × V)),
      (∀ n ∈ pre, ∀ e, u (source.get n) = Except.error e → e = ErrorCode.BadFileFormat) →
      (LoadLoop u source (pre ++ bad :: post) registry).thrown = some ErrorCode.BadFileFormat
  | [], registry, _ => by
    simp [LoadLoop, CheckAlphanumeric.error_of_invalid hbad]
  | name :: rest, registry, hpre => by
    simp only [List.cons_append, LoadLoop]
    by_cases hn : IsSymbolicName name
    · rw [CheckAlphanumeric.ok_of_valid hn]
      cases hu : u (source.get name) with
      | error e =>
        have := hpre name (List.mem_cons_self _ _) e hu
        simp [this]
      | ok item =>
        exact LoadLoop.thrown_at_invalid u source bad post hbad rest _
          (fun n hmem => hpre n (List.mem_cons_of_mem _ hmem))
    · rw [CheckAlphanumeric.error_of_invalid hn]

end OrthancConfiguration

namespace OrthancConfiguration

variable {M P : Type}

/-- C6, as stated, fails: in the section `{"a": ["A","h",-1], "b c": ...}` the
name `b c` holds a space, yet the load fails with `ParameterOutOfRange`, the
error of the `Unserialize` of the member `a`, reached before the name `b c`
is checked. -/
theorem load_invalid_name_other_error :
    (Json.objectValue
      [("a", Json.arrayValue [Json.stringValue "A", Json.stringValue "h", Json.intValue (-1)]),
       ("b c", Json.arrayValue [Json.stringValue "B", Json.stringValue "h", Json.intValue 104])]
      ).isObject = true ∧
    (∃ n ∈ (Json.objectValue
      [("a", Json.arrayValue [Json.stringValue "A", Json.stringValue "h", Json.intValue (-1)]),
       ("b c", Json.arrayValue [Json.stringValue "B", Json.stringValue "h", Json.intValue 104])]
      ).getMemberNames, ¬ IsSymbolicName n) ∧
    (LoadModalitiesFromJson exampleModalities (Json.objectValue
      [("a", Json.arrayValue [Json.stringValue "A", Json.stringValue "h", Json.intValue (-1)]),
       ("b c", Json.arrayValue [Json.stringValue "B", Json.stringValue "h", Json.intValue 104])]
      )).thrown = some ErrorCode.ParameterOutOfRange ∧
    (LoadModalitiesFromJson exampleModalities (Json.objectValue
      [("a", Json.arrayValue [Json.stringValue "A", Json.stringValue "h", Json.intValue (-1)]),
       ("b c", Json.arrayValue [Json.stringValue "B", Json.stringValue "h", Json.intValue 104])]
      )).thrown ≠ some ErrorCode.BadFileFormat :=
  ⟨rfl, ⟨"b c", by decide, by decide⟩, by decide, by decide⟩

/-- C6 (amended): loading a section that is an object never succeeds when some
member name holds a character that is neither alphanumeric nor a dash; it
fails with `BadFileFormat` when no member before that name fails to
deserialize with another error.  When every member name is valid the name
check rejects nothing: the load fails only with the error of the
`Unserialize` of a member, and succeeds when every member deserializes.  All
of this holds for the modalities and for the peers. -/
theorem load_section_name_check (R : RemoteModalityParameters M) (W : WebServiceParameters P)
    (source : Json) (hobj : source.isObject = true) :
    ((∃ n ∈ source.getMemberNames, ¬ IsSymbolicName n) →
      (LoadModalitiesFromJson R source).thrown ≠ none ∧
      (LoadPeersFromJson W source).thrown ≠ none) ∧
    (∀ pre bad post, source.getMemberNames = pre ++ bad :: post → ¬ IsSymbolicName bad →
      ((∀ n ∈ pre, ∀ e, R.Unserialize (source.get n) = Except.error e →
          e = ErrorCode.BadFileFormat) →
        (LoadModalitiesFromJson R source).thrown = some ErrorCode.BadFileFormat) ∧
      ((∀ n ∈ pre, ∀ e, W.Unserialize (source.get n) = Except.error e →
          e = ErrorCode.BadFileFormat) →
        (LoadPeersFromJson W source).thrown = some ErrorCode.BadFileFormat)) ∧
    ((∀ n ∈ source.getMemberNames, IsSymbolicName n) →
      ((LoadModalitiesFromJson R source).thrown = none ∨
        ∃ n ∈ source.getMemberNames, ∃ e, R.Unserialize (source.get n) = Except.error e ∧
          (LoadModalitiesFromJson R source).thrown = some e) ∧
      ((LoadPeersFromJson W source).thrown = none ∨
        ∃ n ∈ source.getMemberNames, ∃ e, W.Unserialize (source.get n) = Except.error e ∧
          (LoadPeersFromJson W source).thrown = some e) ∧
      ((∀ n ∈ source.getMemberNames, ∃ v, R.Unserialize (source.get n) = Except.ok v) →
        (LoadModalitiesFromJson R source).thrown = none) ∧
      ((∀ n ∈ source.getMemberNames, ∃ v, W.Unserialize (source.get n) = Except.ok v) →
        (LoadPeersFromJson W source).thrown = none)) := by
  have hm : LoadModalitiesFromJson R source =
      LoadLoop R.Unserialize source source.getMemberNames [] := by
    simp [LoadModalitiesFromJson, hobj, modalities_loop_eq]
  have hp : LoadPeersFromJson W source =
      LoadLoop W.Unserialize source source.getMemberNames [] := by
    simp [LoadPeersFromJson, hobj, peers_loop_eq]
  rw [hm, hp]
  have fails : ∀ {V : Type} (u : Json → Except ErrorCode V),
      (∃ n ∈ source.getMemberNames, ¬ IsSymbolicName n) →
      (LoadLoop u source source.getMemberNames []).thrown ≠ none := by
    intro V u hbad
    obtain ⟨n, hn, hinv⟩ := hbad
    rcases LoadLoop.thrown_cases u source source.getMemberNames [] with h | h | h
    · exact absurd (h.2 n hn).1 hinv
    · rw [h.1]; simp
    · obtain ⟨_, _, _, e, _, ht⟩ := h
      rw [ht]; simp
  have valid : ∀ {V : Type} (u : Json → Except ErrorCode V),
      (∀ n ∈ source.getMemberNames, IsSymbolicName n) →
      ((LoadLoop u source source.getMemberNames []).thrown = none ∨
        ∃ n ∈ source.getMemberNames, ∃ e, u (source.get n) = Except.error e ∧
          (LoadLoop u source source.getMemberNames []).thrown = some e) := by
    intro V u hall
    rcases LoadLoop.thrown_cases u source source.getMemberNames [] with h | h | h
    · exact Or.inl h.1
    · obtain ⟨_, n, hn, hinv⟩ := h
      exact absurd (hall n hn) hinv
    · obtain ⟨n, hn, _, e, he, ht⟩ := h
      exact Or.inr ⟨n, hn, e, he, ht⟩
  have succeeds : ∀ {V : Type} (u : Json → Except ErrorCode V),
      (∀ n ∈ source.getMemberNames, IsSymbolicName n) →
      (∀ n ∈ source.getMemberNames, ∃ v, u (source.get n) = Except.ok v) →
      (LoadLoop u source source.getMemberNames []).thrown = none := by
    intro V u hall hok
    rcases valid u hall with h | h
    · exact h
    · obtain ⟨n, hn, e, he, _⟩ := h
      obtain ⟨v, hv⟩ := hok n hn
      rw [hv] at he
      cases he
  refine ⟨fun hbad => ⟨fails _ hbad, fails _ hbad⟩, ?_, fun hall =>
    ⟨valid _ hall, valid _ hall, succeeds _ hall, succeeds _ hall⟩⟩
  intro pre bad post hsplit hbad
  rw [hsplit]
  exact ⟨LoadLoop.thrown_at_invalid _ source bad post hbad pre [],
    LoadLoop.thrown_at_invalid _ source bad post hbad pre []⟩

/-- Witness of C6 (amended): the sections `{"my modality": ...}` and
`{"my_peer": ...}` are rejected with `BadFileFormat`. -/
theorem load_section_name_check_witness :
    (LoadModalitiesFromJson exampleModalities (Json.objectValue
      [("my modality",
        Json.arrayValue [Json.stringValue "A", Json.stringValue "h", Json.intValue 104])])).thrown
      = some ErrorCode.BadFileFormat ∧
    (LoadPeersFromJson examplePeers (Json.objectValue
      [("my_peer", Json.stringValue "http://localhost:8042/")])).thrown
      = some ErrorCode.BadFileFormat :=
  ⟨((load_section_name_check exampleModalities examplePeers (Json.objectValue
      [("my modality",
        Json.arrayValue [Json.stringValue "A", Json.stringValue "h", Json.intValue 104])])
      rfl).2.1 [] "my modality" [] rfl (by decide)).1 (by simp),
   ((load_section_name_check exampleModalities examplePeers (Json.objectValue
      [("my_peer", Json.stringValue "http://localhost:8042/")])
      rfl).2.1 [] "my_peer" [] rfl (by decide)).2 (by simp)⟩

end OrthancConfiguration

/-! ## Updating the registries -/

namespace OrthancConfiguration

variable {M P : Type}

theorem SaveModalities.modalities (R : RemoteModalityParameters M)
    (c : OrthancConfiguration M P) : (SaveModalities R c).modalities_ = c.modalities_ := by
  unfold SaveModalities
  split_ifs <;> rfl

theorem SavePeers.peers (W : WebServiceParameters P) (c : OrthancConfiguration M P) :
    (SavePeers W c).peers_ = c.peers_ := by
  unfold SavePeers
  split_ifs <;> rfl

/-- C7: the code does not check the symbolic name at update time.  Whatever
its characters, `UpdateModality` returns without error and registers the
descriptor under the name; so does `UpdatePeer` once the certificate check has
passed. -/
theorem update_registers_any_name (R : RemoteModalityParameters M)
    (W : WebServiceParameters P) (c : OrthancConfiguration M P) (name : String) :
    (∀ m, (UpdateModality R c name m).thrown = none ∧
      StdMap.find name (UpdateModality R c name m).state.modalities_ = some m) ∧
    (∀ p, W.CheckClientCertificate p = Except.ok () →
      (UpdatePeer W c name p).thrown = none ∧
      StdMap.find name (UpdatePeer W c name p).state.peers_ = some p) := by
  refine ⟨fun m => ⟨rfl, ?_⟩, fun p hp => ?_⟩
  · simp only [UpdateModality, SaveModalities.modalities]
    exact StdMap.find_insert_self name m c.modalities_
  · have hrun : UpdatePeer W c name p =
        ⟨SavePeers W { c with peers_ := StdMap.insert name p c.peers_ }, none⟩ := by
      simp only [UpdatePeer, hp]
    rw [hrun]
    refine ⟨rfl, ?_⟩
    rw [SavePeers.peers]
    exact StdMap.find_insert_self name p c.peers_

/-- Witness of C7: on the store that `Read` leaves for an absent configuration,
`UpdateModality("my modality", ...)` and `UpdatePeer("my_peer", ...)` return
without error; the registries then hold names that `CheckAlphanumeric`
rejects, and the sections written to the tree no longer load. -/
theorem update_registers_any_name_witness :
    (UpdateModality exampleModalities emptyConfiguration "my modality"
      ⟨"ECHO", "localhost", 104⟩).thrown = none ∧
    StdMap.keys (UpdateModality exampleModalities emptyConfiguration "my modality"
      ⟨"ECHO", "localhost", 104⟩).state.modalities_ = ["my modality"] ∧
    CheckAlphanumeric "my modality" = Except.error ErrorCode.BadFileFormat ∧
    (LoadModalitiesFromJson exampleModalities
      ((UpdateModality exampleModalities emptyConfiguration "my modality"
        ⟨"ECHO", "localhost", 104⟩).state.json_.get DICOM_MODALITIES)).thrown
      = some ErrorCode.BadFileFormat ∧
    (UpdatePeer examplePeers emptyConfiguration "my_peer" "http://localhost:8042/").thrown
      = none ∧
    StdMap.keys (UpdatePeer examplePeers emptyConfiguration "my_peer"
      "http://localhost:8042/").state.peers_ = ["my_peer"] ∧
    CheckAlphanumeric "my_peer" = Except.error ErrorCode.BadFileFormat :=
  have h := update_registers_any_name exampleModalities examplePeers emptyConfiguration
  ⟨((h "my modality").1 ⟨"ECHO", "localhost", 104⟩).1, by decide, by decide, by decide,
    ((h "my_peer").2 "http://localhost:8042/" (by decide)).1, by decide, by decide⟩

end OrthancConfiguration

/-! ## Round trip of the registries -/

namespace OrthancConfiguration

variable {M P V : Type}

theorem keys_map_snd (g : V → Json) (l : List (String × V)) :
    StdMap.keys (l.map fun it => (it.1, g it.2)) = StdMap.keys l := by
  simp [StdMap.keys, List.map_map, Function.comp_def]

/-- Saving a sorted registry writes its entries in the same order. -/
theorem save_fold (g : V → Json) :
    ∀ (l : List (String × V)) (acc : List (String × Json)),
      (∀ a ∈ StdMap.keys acc, ∀ b ∈ StdMap.keys l, stringLess a b = true) →
      StdMap.Ordered l →
      l.foldl (fun target it => target.set it.1 (g it.2)) (Json.objectValue acc) =
        Json.objectValue (acc ++ l.map fun it => (it.1, g it.2))
  | [], acc, _, _ => by simp
  | (k, v) :: rest, acc, hlt, hord => by
    rw [StdMap.ordered_cons] at hord
    have hlast : StdMap.insert k (g v) acc = acc ++ [(k, g v)] :=
      StdMap.insert_last k (g v) acc (fun a ha => hlt a ha k (by simp [StdMap.keys]))
    have hstep : (Json.objectValue acc).set k (g v) = Json.objectValue (acc ++ [(k, g v)]) := by
      simp only [Json.set, Json.members_objectValue, hlast]
    have hlt2 : ∀ a ∈ StdMap.keys (acc ++ [(k, g v)]), ∀ b ∈ StdMap.keys rest,
        stringLess a b = true := by
      intro a ha b hb
      simp only [StdMap.keys, List.map_append, List.map_cons, List.map_nil, List.mem_append,
        List.mem_singleton] at ha
      rcases ha with ha | ha
      · exact hlt a ha b (by simp only [StdMap.keys, List.map_cons, List.mem_cons]; exact Or.inr hb)
      · rw [ha]; exact hord.1 b hb
    simp only [List.foldl_cons, hstep]
    rw [save_fold g rest (acc ++ [(k, g v)]) hlt2 hord.2]
    simp

/-- Loading the section saved from a sorted registry of valid names rebuilds
that registry, when `Unserialize` undoes `Serialize`. -/
theorem load_saved (u : Json → Except ErrorCode V) (g : V → Json)
    (hug : ∀ d, u (g d) = Except.ok d) (reg : List (String × V))
    (hord : StdMap.Ordered reg) (hval : ∀ k ∈ StdMap.keys reg, IsSymbolicName k) :
    ∀ (todo done : List (String × V)), done ++ todo = reg →
      LoadLoop u (Json.objectValue (reg.map fun it => (it.1, g it.2)))
        (StdMap.keys todo) done = ⟨reg, none⟩
  | [], done, h => by
    rw [List.append_nil] at h
    simp [StdMap.keys, LoadLoop, h]
  | (k, d) :: rest, done, h => by
    have hmem : (k, d) ∈ reg := by rw [← h]; simp
    have hk : k ∈ StdMap.keys reg := List.mem_map.2 ⟨(k, d), hmem, rfl⟩
    have hordm : StdMap.Ordered (reg.map fun it => (it.1, g it.2)) := by
      unfold StdMap.Ordered
      rw [keys_map_snd]
      exact hord
    have hget : (Json.objectValue (reg.map fun it => (it.1, g it.2))).get k = g d := by
      have : StdMap.find k (reg.map fun it => (it.1, g it.2)) = some (g d) :=
        StdMap.find_of_mem k (g d) _ hordm (List.mem_map.2 ⟨(k, d), hmem, rfl⟩)
      simp [Json.get, Json.members_objectValue, this]
    have hdone : ∀ a ∈ StdMap.keys done, stringLess a k = true := by
      intro a ha
      have hp : (StdMap.keys (done ++ (k, d) :: rest)).Pairwise
          (fun a b => stringLess a b = true) := by rw [h]; exact hord
      simp only [StdMap.keys, List.map_append, List.map_cons] at hp
      exact (List.pairwise_append.1 hp).2.2 a ha k (List.mem_cons_self _ _)
    have hins : StdMap.insert k d done = done ++ [(k, d)] := StdMap.insert_last k d done hdone
    have ih := load_saved u g hug reg hord hval rest (done ++ [(k, d)]) (by simp [← h])
    simp only [StdMap.keys, List.map_cons, LoadLoop, CheckAlphanumeric.ok_of_valid (hval k hk),
      hget, hug, hins]
    exact ih

/-- Round trip over the shared loop. -/
theorem round_trip_loop (u : Json → Except ErrorCode V) (g : V → Json)
    (hug : ∀ d, u (g d) = Except.ok d) (source : Json) :
    LoadLoop u
      ((LoadLoop u source source.getMemberNames []).state.foldl
        (fun target it => target.set it.1 (g it.2)) (Json.objectValue []))
      ((LoadLoop u source source.getMemberNames []).state.foldl
        (fun target it => target.set it.1 (g it.2)) (Json.objectValue [])).getMemberNames []
      = ⟨(LoadLoop u source source.getMemberNames []).state, none⟩ := by
  obtain ⟨hord, hval⟩ := LoadLoop.invariant u source source.getMemberNames []
    (by simp [StdMap.Ordered, StdMap.keys]) (by simp [StdMap.keys])
  rw [save_fold g _ [] (by simp [StdMap.keys]) hord]
  simp only [List.nil_append, Json.getMemberNames, Json.members_objectValue, keys_map_snd]
  exact load_saved u g hug _ hord hval _ [] rfl

/-- C9: for the modalities and for the peers, when a section loads without
error, saving the loaded registry and loading the saved section again yields,
without error, the same registry, given that `Unserialize` undoes
`Serialize`. -/
theorem registry_round_trip (R : RemoteModalityParameters M) (W : WebServiceParameters P)
    (source : Json)
    (hR : ∀ d, R.Unserialize (R.Serialize d) = Except.ok d)
    (hW : ∀ d, W.Unserialize (W.Serialize d) = Except.ok d) :
    ((LoadModalitiesFromJson R source).thrown = none →
      LoadModalitiesFromJson R (SaveModalitiesToJson R (LoadModalitiesFromJson R source).state)
        = ⟨(LoadModalitiesFromJson R source).state, none⟩) ∧
    ((LoadPeersFromJson W source).thrown = none →
      LoadPeersFromJson W (SavePeersToJson W (LoadPeersFromJson W source).state)
        = ⟨(LoadPeersFromJson W source).state, none⟩) := by
  have hsaved : ∀ {V : Type} (g : V → Json) (l : List (String × V)),
      (l.foldl (fun target it => target.set it.1 (g it.2)) (Json.objectValue [])).isObject
        = true := by
    intro V g l
    have : ∀ (l : List (String × V)) (j : Json), j.isObject = true →
        (l.foldl (fun target it => target.set it.1 (g it.2)) j).isObject = true := by
      intro l
      induction l with
      | nil => intro j hj; exact hj
      | cons x xs ih => intro j _; exact ih _ rfl
    exact this l _ rfl
  constructor
  · intro hload
    have hobj : source.isObject = true := by
      by_contra hno
      simp [LoadModalitiesFromJson, hno] at hload
    have hm : LoadModalitiesFromJson R source =
        LoadLoop R.Unserialize source source.getMemberNames [] := by
      simp [LoadModalitiesFromJson, hobj, modalities_loop_eq]
    rw [hm]
    simp only [LoadModalitiesFromJson, SaveModalitiesToJson, hsaved, if_true,
      modalities_loop_eq]
    exact round_trip_loop R.Unserialize R.Serialize hR source
  · intro hload
    have hobj : source.isObject = true := by
      by_contra hno
      simp [LoadPeersFromJson, hno] at hload
    have hp : LoadPeersFromJson W source =
        LoadLoop W.Unserialize source source.getMemberNames [] := by
      simp [LoadPeersFromJson, hobj, peers_loop_eq]
    rw [hp]
    simp only [LoadPeersFromJson, SavePeersToJson, hsaved, if_true, peers_loop_eq]
    exact round_trip_loop W.Unserialize W.Serialize hW source

theorem exampleModalities_round_trip (d : ExampleModality) :
    exampleModalities.Unserialize (exampleModalities.Serialize d) = Except.ok d := by
  cases d with
  | mk aet host port =>
    have hport : ¬ ((port : Int) < 0) := by omega
    simp [exampleModalities, hport]

theorem examplePeers_round_trip (d : String) :
    examplePeers.Unserialize (examplePeers.Serialize d) = Except.ok d := rfl

/-- Witness of C9: a section of two modalities and a section of two peers
load without error, and come back unchanged from a save and a second load. -/
theorem registry_round_trip_witness :
    (LoadModalitiesFromJson exampleModalities (Json.objectValue
      [("pacs", Json.arrayValue
          [Json.stringValue "PACS", Json.stringValue "10.0.0.1", Json.intValue 4242]),
       ("sample", Json.arrayValue
          [Json.stringValue "ECHO", Json.stringValue "localhost", Json.intValue 104])])).state
      = [("pacs", ⟨"PACS", "10.0.0.1", 4242⟩), ("sample", ⟨"ECHO", "localhost", 104⟩)] ∧
    LoadModalitiesFromJson exampleModalities (SaveModalitiesToJson exampleModalities
      (LoadModalitiesFromJson exampleModalities (Json.objectValue
        [("pacs", Json.arrayValue
            [Json.stringValue "PACS", Json.stringValue "10.0.0.1", Json.intValue 4242]),
         ("sample", Json.arrayValue
            [Json.stringValue "ECHO", Json.stringValue "localhost", Json.intValue 104])])).state)
      = ⟨(LoadModalitiesFromJson exampleModalities (Json.objectValue
        [("pacs", Json.arrayValue
            [Json.stringValue "PACS", Json.stringValue "10.0.0.1", Json.intValue 4242]),
         ("sample", Json.arrayValue
            [Json.stringValue "ECHO", Json.stringValue "localhost", Json.intValue 104])])).state,
        none⟩ ∧
    (LoadPeersFromJson examplePeers (Json.objectValue
      [("peer-1", Json.stringValue "http://10.0.0.2:8042/"),
       ("peer-2", Json.stringValue "http://10.0.0.3:8042/")])).state
      = [("peer-1", "http://10.0.0.2:8042/"), ("peer-2", "http://10.0.0.3:8042/")] ∧
    LoadPeersFromJson examplePeers (SavePeersToJson examplePeers
      (LoadPeersFromJson examplePeers (Json.objectValue
        [("peer-1", Json.stringValue "http://10.0.0.2:8042/"),
         ("peer-2", Json.stringValue "http://10.0.0.3:8042/")])).state)
      = ⟨(LoadPeersFromJson examplePeers (Json.objectValue
        [("peer-1", Json.stringValue "http://10.0.0.2:8042/"),
         ("peer-2", Json.stringValue "http://10.0.0.3:8042/")])).state, none⟩ :=
  ⟨by decide,
   (registry_round_trip exampleModalities examplePeers _ exampleModalities_round_trip
      examplePeers_round_trip).1 (by decide),
   by decide,
   (registry_round_trip exampleModalities examplePeers _ exampleModalities_round_trip
      examplePeers_round_trip).2 (by decide)⟩

end OrthancConfiguration

/-! ## Known AETs -/

namespace OrthancConfiguration

variable {M P : Type}

theorem lookup_none (R : RemoteModalityParameters M) (c : OrthancConfiguration M P)
    (aet : String) :
    ∀ (l : List (String × M)),
      (∀ it ∈ l, c.IsSameAETitle aet (R.GetApplicationEntityTitle it.2) = Except.ok false) →
      LookupDicomModalityUsingAETitle.loop R c aet l = Except.ok none
  | [], _ => rfl
  | it :: rest, h => by
    simp only [LookupDicomModalityUsingAETitle.loop, h it (List.mem_cons_self _ _)]
    exact lookup_none R c aet rest (fun x hx => h x (List.mem_cons_of_mem _ hx))

theorem lookup_first (R : RemoteModalityParameters M) (c : OrthancConfiguration M P)
    (aet : String) (it : String × M) (post : List (String × M))
    (hit : c.IsSameAETitle aet (R.GetApplicationEntityTitle it.2) = Except.ok true) :
    ∀ (pre : List (String × M)),
      (∀ x ∈ pre, c.IsSameAETitle aet (R.GetApplicationEntityTitle x.2) = Except.ok false) →
      LookupDicomModalityUsingAETitle.loop R c aet (pre ++ it :: post) = Except.ok (some it.2)
  | [], _ => by
    simp only [List.nil_append, LookupDicomModalityUsingAETitle.loop, hit]
  | x :: rest, h => by
    simp only [List.cons_append, LookupDicomModalityUsingAETitle.loop,
      h x (List.mem_cons_self _ _)]
    exact lookup_first R c aet it post hit rest (fun y hy => h y (List.mem_cons_of_mem _ hy))

/-- C10: `IsKnownAETitle` is false when no registered modality has an AET that
matches under `IsSameAETitle`.  When some modality matches, let `it` be the
first one in the order of the registry: the result is true if
`"DicomCheckModalityHost"` is absent or `false`, and if it is `true` the
result is true exactly when the host of the caller is the host of `it`. -/
theorem known_aet (R : RemoteModalityParameters M) (c : OrthancConfiguration M P)
    (aet ip : String) :
    ((∀ it ∈ c.modalities_,
        c.IsSameAETitle aet (R.GetApplicationEntityTitle it.2) = Except.ok false) →
      c.IsKnownAETitle R aet ip = Except.ok false) ∧
    (∀ pre it post, c.modalities_ = pre ++ it :: post →
      (∀ x ∈ pre, c.IsSameAETitle aet (R.GetApplicationEntityTitle x.2) = Except.ok false) →
      c.IsSameAETitle aet (R.GetApplicationEntityTitle it.2) = Except.ok true →
      ((c.json_.isMember "DicomCheckModalityHost" = false ∨
          c.json_.get "DicomCheckModalityHost" = Json.booleanValue false) →
        c.IsKnownAETitle R aet ip = Except.ok true) ∧
      (c.json_.isMember "DicomCheckModalityHost" = true →
        c.json_.get "DicomCheckModalityHost" = Json.booleanValue true →
        c.IsKnownAETitle R aet ip = Except.ok (decide (ip = R.GetHost it.2)))) := by
  refine ⟨fun hnone => ?_, fun pre it post hsplit hpre hit => ⟨fun hoff => ?_, fun hmem hon => ?_⟩⟩
  · simp [IsKnownAETitle, LookupDicomModalityUsingAETitle, lookup_none R c aet _ hnone]
  · have hfound : c.LookupDicomModalityUsingAETitle R aet = Except.ok (some it.2) := by
      unfold LookupDicomModalityUsingAETitle
      rw [hsplit]
      exact lookup_first R c aet it post hit pre hpre
    rcases hoff with habs | hfalse
    · simp [IsKnownAETitle, hfound, GetBooleanParameter, habs]
    · by_cases hm : c.json_.isMember "DicomCheckModalityHost" = true
      · simp [IsKnownAETitle, hfound, GetBooleanParameter, hm, hfalse]
      · simp [IsKnownAETitle, hfound, GetBooleanParameter, hm]
  · have hfound : c.LookupDicomModalityUsingAETitle R aet = Except.ok (some it.2) := by
      unfold LookupDicomModalityUsingAETitle
      rw [hsplit]
      exact lookup_first R c aet it post hit pre hpre
    by_cases hip : ip = R.GetHost it.2
    · simp [IsKnownAETitle, hfound, GetBooleanParameter, hmem, hon, hip]
    · simp [IsKnownAETitle, hfound, GetBooleanParameter, hmem, hon, hip]

/-- Witness of C10: with host checking on, the AET `STORE` is unknown, the AET
`echo` is known from `10.0.0.1` and unknown from `10.0.0.9`. -/
theorem known_aet_witness :
    exampleStore.IsKnownAETitle exampleModalities "STORE" "10.0.0.1" = Except.ok false ∧
    exampleStore.IsKnownAETitle exampleModalities "echo" "10.0.0.1" = Except.ok true ∧
    exampleStore.IsKnownAETitle exampleModalities "echo" "10.0.0.9" = Except.ok false :=
  ⟨(known_aet exampleModalities exampleStore "STORE" "10.0.0.1").1 (by decide),
   ((known_aet exampleModalities exampleStore "echo" "10.0.0.1").2
      [] ("sample", ⟨"ECHO", "10.0.0.1", 104⟩) [] rfl (by decide) (by decide)).2
      (by decide) rfl,
   ((known_aet exampleModalities exampleStore "echo" "10.0.0.9").2
      [] ("sample", ⟨"ECHO", "10.0.0.1", 104⟩) [] rfl (by decide) (by decide)).2
      (by decide) rfl⟩

end OrthancConfiguration

/-! ## Merging into a non-empty target -/

theorem AddFileToConfiguration.loop_frame (config : Json) :
    ∀ (names : List String) (target : Json),
      ((AddFileToConfiguration.loop config names target).thrown = none ∨
        (AddFileToConfiguration.loop config names target).thrown =
          some ErrorCode.BadFileFormat) ∧
      (∀ k, target.isMember k = true →
        StdMap.find k (AddFileToConfiguration.loop config names target).state.members =
          StdMap.find k target.members)
  | [], target => by simp [AddFileToConfiguration.loop]
  | n :: rest, target => by
    by_cases hn : target.isMember n = true
    · simp [AddFileToConfiguration.loop, hn]
    · have ih := AddFileToConfiguration.loop_frame config rest (target.set n (config.get n))
      have hn' : target.isMember n = false := by simpa using hn
      simp only [AddFileToConfiguration.loop, hn', Bool.false_eq_true, if_false]
      refine ⟨ih.1, ?_⟩
      intro k hk
      have hkn : k ≠ n := fun h => hn (h ▸ hk)
      rw [ih.2 k (by rw [Json.isMember_set, hk, Bool.or_true]), Json.find_set, if_neg hkn]

theorem AddFileToConfiguration.loop_stops (config : Json) (bad : String)
    (post : List String) :
    ∀ (pre : List String) (target : Json), pre.Nodup →
      (∀ n ∈ pre, target.isMember n = false) → target.isMember bad = true →
      (AddFileToConfiguration.loop config (pre ++ bad :: post) target).thrown =
        some ErrorCode.BadFileFormat ∧
      (∀ k, StdMap.find k
          (AddFileToConfiguration.loop config (pre ++ bad :: post) target).state.members =
        if k ∈ pre then some (config.get k) else StdMap.find k target.members)
  | [], target, _, _, hbad => by
    simp [AddFileToConfiguration.loop, hbad]
  | n :: rest, target, hnd, hnew, hbad => by
    have hn : target.isMember n = false := hnew n (List.mem_cons_self n rest)
    rw [List.nodup_cons] at hnd
    have hrest : ∀ m ∈ rest, (target.set n (config.get n)).isMember m = false := by
      intro m hm
      have hmn : m ≠ n := fun h => hnd.1 (h ▸ hm)
      rw [Json.isMember_set]
      simp [hmn, hnew m (List.mem_cons_of_mem n hm)]
    have hbad2 : (target.set n (config.get n)).isMember bad = true := by
      rw [Json.isMember_set, hbad, Bool.or_true]
    have ih := AddFileToConfiguration.loop_stops config bad post rest
      (target.set n (config.get n)) hnd.2 hrest hbad2
    have hcons : (n :: rest) ++ bad :: post = n :: (rest ++ bad :: post) := rfl
    rw [hcons]
    simp only [AddFileToConfiguration.loop, hn, Bool.false_eq_true, if_false]
    refine ⟨ih.1, ?_⟩
    intro k
    rw [ih.2 k, Json.find_set]
    by_cases hk : k ∈ rest
    · simp [hk]
    · by_cases hkn : k = n
      · subst hkn
        simp
      · simp [hk, hkn]

/-- C20: a merge into a non-empty target ends without error or with
`BadFileFormat`, and either way every key the target had is still there with
the value it had.  When the merge fails at the key `bad` of the fragment, the
target holds, besides its own keys, exactly the keys of the fragment that
come before `bad`, with the values of the fragment. -/
theorem merge_keeps_target (target config : Json) (hne : target.size ≠ 0) :
    ((AddFileToConfiguration target config).thrown = none ∨
      (AddFileToConfiguration target config).thrown = some ErrorCode.BadFileFormat) ∧
    (∀ k, target.isMember k = true →
      (AddFileToConfiguration target config).state.isMember k = true ∧
      (AddFileToConfiguration target config).state.get k = target.get k) ∧
    (config.Ordered → ∀ pre bad post, config.getMemberNames = pre ++ bad :: post →
      (∀ n ∈ pre, target.isMember n = false) → target.isMember bad = true →
      (AddFileToConfiguration target config).thrown = some ErrorCode.BadFileFormat ∧
      (∀ k, (AddFileToConfiguration target config).state.isMember k =
        (target.isMember k || decide (k ∈ pre))) ∧
      (∀ k ∈ pre, (AddFileToConfiguration target config).state.get k = config.get k)) := by
  have hrun : AddFileToConfiguration target config =
      AddFileToConfiguration.loop config config.getMemberNames target := by
    simp [AddFileToConfiguration, hne]
  rw [hrun]
  have hframe := AddFileToConfiguration.loop_frame config config.getMemberNames target
  refine ⟨hframe.1, ?_, ?_⟩
  · intro k hk
    have hfind := hframe.2 k hk
    constructor
    · simp only [Json.isMember, hfind]
      exact hk
    · simp only [Json.get, hfind]
  · intro hord pre bad post hsplit hpre hbad
    have hnd : pre.Nodup := by
      have hall : (pre ++ bad :: post).Nodup := by
        rw [← hsplit]
        exact StdMap.nodup_keys _ hord
      exact (List.nodup_append.1 hall).1
    rw [hsplit]
    obtain ⟨hthrown, hfind⟩ :=
      AddFileToConfiguration.loop_stops config bad post pre target hnd hpre hbad
    refine ⟨hthrown, ?_, ?_⟩
    · intro k
      simp only [Json.isMember, hfind k]
      by_cases hk : k ∈ pre
      · simp [hk]
      · simp [hk]
    · intro k hk
      simp only [Json.get, hfind k, if_pos hk, Option.getD_some]

/-- Witness of C20: merging `{"A":2,"X":3}` into `{"X":1}` fails at `X`; the
target keeps `X` with the value 1 and has received `A`. -/
theorem merge_keeps_target_witness :
    (AddFileToConfiguration (Json.objectValue [("X", Json.intValue 1)])
      (Json.objectValue [("A", Json.intValue 2), ("X", Json.intValue 3)])).thrown
      = some ErrorCode.BadFileFormat ∧
    (AddFileToConfiguration (Json.objectValue [("X", Json.intValue 1)])
      (Json.objectValue [("A", Json.intValue 2), ("X", Json.intValue 3)])).state.get "X"
      = Json.intValue 1 ∧
    (AddFileToConfiguration (Json.objectValue [("X", Json.intValue 1)])
      (Json.objectValue [("A", Json.intValue 2), ("X", Json.intValue 3)])).state.get "A"
      = Json.intValue 2 :=
  have h := merge_keeps_target (Json.objectValue [("X", Json.intValue 1)])
    (Json.objectValue [("A", Json.intValue 2), ("X", Json.intValue 3)]) (by decide)
  have h3 := h.2.2 (by decide) ["A"] "X" [] rfl (by decide) (by decide)
  ⟨h3.1, (h.2.1 "X" (by decide)).2, h3.2.2 "A" (by decide)⟩

/-! ## Lookup of a modality by its AET -/

namespace OrthancConfiguration

variable {M P : Type}

theorem lookup_split (R : RemoteModalityParameters M) (c : OrthancConfiguration M P)
    (aet : String) :
    ∀ (l : List (String × M)),
      (∀ x ∈ l, ∃ b, c.IsSameAETitle aet (R.GetApplicationEntityTitle x.2) = Except.ok b) →
      (∀ x ∈ l, c.IsSameAETitle aet (R.GetApplicationEntityTitle x.2) = Except.ok false) ∨
      ∃ pre it post, l = pre ++ it :: post ∧
        (∀ x ∈ pre, c.IsSameAETitle aet (R.GetApplicationEntityTitle x.2) = Except.ok false) ∧
        c.IsSameAETitle aet (R.GetApplicationEntityTitle it.2) = Except.ok true
  | [], _ => Or.inl (by simp)
  | x :: rest, h => by
    obtain ⟨b, hb⟩ := h x (List.mem_cons_self _ _)
    cases b with
    | true => exact Or.inr ⟨[], x, rest, rfl, by simp, hb⟩
    | false =>
      rcases lookup_split R c aet rest (fun y hy => h y (List.mem_cons_of_mem _ hy)) with
        hnone | ⟨pre, it, post, hsplit, hpre, hit⟩
      · left
        intro y hy
        rcases List.mem_cons.1 hy with h1 | h1
        · rw [h1]; exact hb
        · exact hnone y h1
      · right
        refine ⟨x :: pre, it, post, by rw [hsplit]; rfl, ?_, hit⟩
        intro y hy
        rcases List.mem_cons.1 hy with h1 | h1
        · rw [h1]; exact hb
        · exact hpre y h1

/-- C11: with `"StrictAetComparison"` absent or Boolean,
`LookupDicomModalityUsingAETitle` does not raise; it finds a modality exactly
when the AET of some entry of the registry matches under `IsSameAETitle`; the
modality found is that of a matching entry whose symbolic name comes before
the name of every other matching entry; when no entry matches it returns
`false`. -/
theorem lookup_by_aet (R : RemoteModalityParameters M) (c : OrthancConfiguration M P)
    (aet : String)
    (hpolicy : ∃ strict, c.GetBooleanParameter "StrictAetComparison" false = Except.ok strict)
    (hord : StdMap.Ordered c.modalities_) :
    (∃ r, c.LookupDicomModalityUsingAETitle R aet = Except.ok r) ∧
    ((∃ m, c.LookupDicomModalityUsingAETitle R aet = Except.ok (some m)) ↔
      ∃ it ∈ c.modalities_,
        c.IsSameAETitle aet (R.GetApplicationEntityTitle it.2) = Except.ok true) ∧
    (∀ m, c.LookupDicomModalityUsingAETitle R aet = Except.ok (some m) →
      ∃ it ∈ c.modalities_, it.2 = m ∧
        c.IsSameAETitle aet (R.GetApplicationEntityTitle it.2) = Except.ok true ∧
        ∀ x ∈ c.modalities_,
          c.IsSameAETitle aet (R.GetApplicationEntityTitle x.2) = Except.ok true →
          x = it ∨ stringLess it.1 x.1 = true) ∧
    ((∀ it ∈ c.modalities_,
        c.IsSameAETitle aet (R.GetApplicationEntityTitle it.2) ≠ Except.ok true) →
      c.LookupDicomModalityUsingAETitle R aet = Except.ok none) := by
  obtain ⟨strict, hstrict⟩ := hpolicy
  have hdef : ∀ x ∈ c.modalities_,
      ∃ b, c.IsSameAETitle aet (R.GetApplicationEntityTitle x.2) = Except.ok b := by
    intro x _
    cases strict with
    | true =>
      refine ⟨decide (aet = R.GetApplicationEntityTitle x.2), ?_⟩
      simp only [IsSameAETitle, hstrict]
    | false =>
      refine ⟨decide (ToLowerCase aet = ToLowerCase (R.GetApplicationEntityTitle x.2)), ?_⟩
      simp only [IsSameAETitle, hstrict]
  rcases lookup_split R c aet c.modalities_ hdef with hnone | ⟨pre, it, post, hsplit, hpre, hit⟩
  · have hres : c.LookupDicomModalityUsingAETitle R aet = Except.ok none :=
      lookup_none R c aet _ hnone
    refine ⟨⟨none, hres⟩, ?_, ?_, fun _ => hres⟩
    · constructor
      · rintro ⟨m, hm⟩
        rw [hres] at hm
        cases hm
      · rintro ⟨x, hx, hmatch⟩
        rw [hnone x hx] at hmatch
        cases hmatch
    · intro m hm
      rw [hres] at hm
      cases hm
  · have hres : c.LookupDicomModalityUsingAETitle R aet = Except.ok (some it.2) := by
      unfold LookupDicomModalityUsingAETitle
      rw [hsplit]
      exact lookup_first R c aet it post hit pre hpre
    have hmem : it ∈ c.modalities_ := by rw [hsplit]; simp
    refine ⟨⟨_, hres⟩, ⟨fun _ => ⟨it, hmem, hit⟩, fun _ => ⟨it.2, hres⟩⟩, ?_, ?_⟩
    · intro m hm
      rw [hres] at hm
      have hm' : it.2 = m := by
        injection hm with h1
        injection h1
      refine ⟨it, hmem, hm', hit, ?_⟩
      intro x hx hxmatch
      rw [hsplit] at hx
      rcases List.mem_append.1 hx with hxpre | hxrest
      · rw [hpre x hxpre] at hxmatch
        cases hxmatch
      · rcases List.mem_cons.1 hxrest with hxit | hxpost
        · exact Or.inl hxit
        · right
          have hp : (StdMap.keys (pre ++ it :: post)).Pairwise
              (fun a b => stringLess a b = true) := by rw [← hsplit]; exact hord
          simp only [StdMap.keys, List.map_append, List.map_cons] at hp
          have hp2 := (List.pairwise_append.1 hp).2.1
          exact (List.pairwise_cons.1 hp2).1 x.1 (List.mem_map.2 ⟨x, hxpost, rfl⟩)
    · intro hno
      exact absurd hit (hno it hmem)

/-- Witness of C11: of the two entries whose AET matches `echo`, the lookup
returns the one named `archive`; no entry matches `STORE`. -/
theorem lookup_by_aet_witness :
    twoModalitiesStore.LookupDicomModalityUsingAETitle exampleModalities "echo"
      = Except.ok (some ⟨"ECHO", "10.0.0.1", 104⟩) ∧
    twoModalitiesStore.LookupDicomModalityUsingAETitle exampleModalities "STORE"
      = Except.ok none :=
  ⟨by decide,
   (lookup_by_aet exampleModalities twoModalitiesStore "STORE" ⟨false, by decide⟩
      (by decide)).2.2.2 (by decide)⟩

end OrthancConfiguration

/-! ## Saving the registries -/

theorem Json.get_set_self (j : Json) (k : String) (v : Json) : (j.set k v).get k = v := by
  simp [Json.get, Json.find_set]

theorem Json.get_set_ne (j : Json) {k k' : String} (h : k' ≠ k) (v : Json) :
    (j.set k v).get k' = j.get k' := by
  simp [Json.get, Json.find_set, h]

namespace OrthancConfiguration

variable {M P : Type}

/-- C12: `SaveModalities` and `SavePeers` leave in the section of a non-empty
registry the object that has one member per entry, under the name of the
entry and holding its serialization; in an existing section of an empty
registry the empty object; and they leave the store as it is when the
registry is empty and the section absent. -/
theorem save_section (R : RemoteModalityParameters M) (W : WebServiceParameters P)
    (c : OrthancConfiguration M P) (hm : StdMap.Ordered c.modalities_)
    (hp : StdMap.Ordered c.peers_) :
    (c.modalities_ ≠ [] →
      (SaveModalities R c).json_.get DICOM_MODALITIES =
        Json.objectValue (c.modalities_.map fun it => (it.1, R.Serialize it.2))) ∧
    (c.modalities_ = [] → c.json_.isMember DICOM_MODALITIES = true →
      (SaveModalities R c).json_.get DICOM_MODALITIES = Json.objectValue []) ∧
    (c.modalities_ = [] → c.json_.isMember DICOM_MODALITIES = false →
      SaveModalities R c = c ∧ (SaveModalities R c).json_.isMember DICOM_MODALITIES = false) ∧
    (c.peers_ ≠ [] →
      (SavePeers W c).json_.get ORTHANC_PEERS =
        Json.objectValue (c.peers_.map fun it => (it.1, W.Serialize it.2))) ∧
    (c.peers_ = [] → c.json_.isMember ORTHANC_PEERS = true →
      (SavePeers W c).json_.get ORTHANC_PEERS = Json.objectValue []) ∧
    (c.peers_ = [] → c.json_.isMember ORTHANC_PEERS = false →
      SavePeers W c = c ∧ (SavePeers W c).json_.isMember ORTHANC_PEERS = false) := by
  have hsm : SaveModalitiesToJson R c.modalities_ =
      Json.objectValue (c.modalities_.map fun it => (it.1, R.Serialize it.2)) := by
    have := save_fold R.Serialize c.modalities_ [] (by simp [StdMap.keys]) hm
    simpa [SaveModalitiesToJson] using this
  have hsp : SavePeersToJson W c.peers_ =
      Json.objectValue (c.peers_.map fun it => (it.1, W.Serialize it.2)) := by
    have := save_fold W.Serialize c.peers_ [] (by simp [StdMap.keys]) hp
    simpa [SavePeersToJson] using this
  refine ⟨?_, ?_, ?_, ?_, ?_, ?_⟩
  · intro hne
    have hcond : (!c.modalities_.isEmpty || c.json_.isMember DICOM_MODALITIES) = true := by
      cases hl : c.modalities_ with
      | nil => exact absurd hl hne
      | cons x xs => rfl
    simp only [SaveModalities, hcond, if_true, Json.get_set_self, hsm]
  · intro hnil hmem
    have hcond : (!c.modalities_.isEmpty || c.json_.isMember DICOM_MODALITIES) = true := by
      rw [hmem, Bool.or_true]
    simp only [SaveModalities, hcond, if_true, Json.get_set_self]
    rw [hnil]
    rfl
  · intro hnil hmem
    have hcond : (!c.modalities_.isEmpty || c.json_.isMember DICOM_MODALITIES) = false := by
      rw [hmem, hnil]; rfl
    simp only [SaveModalities, hcond, Bool.false_eq_true, if_false]
    exact ⟨trivial, hmem⟩
  · intro hne
    have hcond : (!c.peers_.isEmpty || c.json_.isMember ORTHANC_PEERS) = true := by
      cases hl : c.peers_ with
      | nil => exact absurd hl hne
      | cons x xs => rfl
    simp only [SavePeers, hcond, if_true, Json.get_set_self, hsp]
  · intro hnil hmem
    have hcond : (!c.peers_.isEmpty || c.json_.isMember ORTHANC_PEERS) = true := by
      rw [hmem, Bool.or_true]
    simp only [SavePeers, hcond, if_true, Json.get_set_self]
    rw [hnil]
    rfl
  · intro hnil hmem
    have hcond : (!c.peers_.isEmpty || c.json_.isMember ORTHANC_PEERS) = false := by
      rw [hmem, hnil]; rfl
    simp only [SavePeers, hcond, Bool.false_eq_true, if_false]
    exact ⟨trivial, hmem⟩

/-- Witness of C12: the section written for the store of the two modalities,
and the untouched tree of the empty store. -/
theorem save_section_witness :
    (SaveModalities exampleModalities twoModalitiesStore).json_.get DICOM_MODALITIES =
      Json.objectValue
        [("archive", Json.arrayValue
            [Json.stringValue "ECHO", Json.stringValue "10.0.0.1", Json.uintValue 104]),
         ("backup", Json.arrayValue
            [Json.stringValue "echo", Json.stringValue "10.0.0.2", Json.uintValue 104])] ∧
    SavePeers examplePeers twoModalitiesStore = twoModalitiesStore :=
  have h := save_section exampleModalities examplePeers twoModalitiesStore
    (by decide) (by decide)
  ⟨h.1 (by decide), (h.2.2.2.2.2 rfl (by decide)).1⟩

end OrthancConfiguration

/-! ## The registries as maps -/

namespace StdMap

variable {V : Type}

theorem find_erase_ne {k k' : String} (h : k' ≠ k) (m : List (String × V)) :
    find k' (erase k m) = find k' m := by
  induction m with
  | nil => rfl
  | cons e rest ih =>
    obtain ⟨k2, v2⟩ := e
    by_cases h2 : k2 = k
    · subst h2
      simp [erase, find, h.symm]
    · simp [erase, find, h2, ih]

theorem find_erase_self (k : String) (m : List (String × V)) (h : Ordered m) :
    find k (erase k m) = none := by
  induction m with
  | nil => rfl
  | cons e rest ih =>
    obtain ⟨k2, v2⟩ := e
    rw [ordered_cons] at h
    by_cases h2 : k2 = k
    · subst h2
      simp only [erase, if_true]
      apply (find_eq_none_iff k2 rest).2
      intro hmem
      have := h.1 k2 hmem
      rw [stringLess_irrefl] at this
      exact Bool.noConfusion this
    · simp [erase, find, h2, ih h.2]

theorem erase_of_not_mem (k : String) (m : List (String × V)) (h : k ∉ keys m) :
    erase k m = m := by
  induction m with
  | nil => rfl
  | cons e rest ih =>
    obtain ⟨k2, v2⟩ := e
    simp only [keys, List.map_cons, List.mem_cons, not_or] at h
    have h2 : ¬ k2 = k := fun hk => h.1 hk.symm
    simp only [erase, h2, if_false]
    rw [ih h.2]

end StdMap

namespace OrthancConfiguration

variable {M P : Type}

/-- C13: the registries behave as maps.  After an update the lookup of the
name returns the descriptor and the lookup of every other name is as before;
after a removal the lookup of the name reports absence (`InexistentItem` for
a modality, `false` for a peer) and the lookup of every other name is as
before; the removal of a name that is not registered returns without error
and leaves the registry as it was. -/
theorem registry_map_semantics (R : RemoteModalityParameters M) (W : WebServiceParameters P)
    (c : OrthancConfiguration M P) (name : String)
    (hm : StdMap.Ordered c.modalities_) (hp : StdMap.Ordered c.peers_) :
    (∀ d, (c.UpdateModality R name d).thrown = none ∧
      (c.UpdateModality R name d).state.GetDicomModalityUsingSymbolicName name = Except.ok d ∧
      ∀ other, other ≠ name →
        (c.UpdateModality R name d).state.GetDicomModalityUsingSymbolicName other =
          c.GetDicomModalityUsingSymbolicName other) ∧
    (∀ d, W.CheckClientCertificate d = Except.ok () →
      (c.UpdatePeer W name d).thrown = none ∧
      (c.UpdatePeer W name d).state.LookupOrthancPeer name = some d ∧
      ∀ other, other ≠ name →
        (c.UpdatePeer W name d).state.LookupOrthancPeer other = c.LookupOrthancPeer other) ∧
    ((c.RemoveModality R name).thrown = none ∧
      (c.RemoveModality R name).state.GetDicomModalityUsingSymbolicName name =
        Except.error ErrorCode.InexistentItem ∧
      ∀ other, other ≠ name →
        (c.RemoveModality R name).state.GetDicomModalityUsingSymbolicName other =
          c.GetDicomModalityUsingSymbolicName other) ∧
    ((c.RemovePeer W name).thrown = none ∧
      (c.RemovePeer W name).state.LookupOrthancPeer name = none ∧
      ∀ other, other ≠ name →
        (c.RemovePeer W name).state.LookupOrthancPeer other = c.LookupOrthancPeer other) ∧
    (name ∉ StdMap.keys c.modalities_ →
      (c.RemoveModality R name).state.modalities_ = c.modalities_) ∧
    (name ∉ StdMap.keys c.peers_ → (c.RemovePeer W name).state.peers_ = c.peers_) := by
  refine ⟨?_, ?_, ?_, ?_, ?_, ?_⟩
  · intro d
    refine ⟨rfl, ?_, ?_⟩
    · simp only [UpdateModality, GetDicomModalityUsingSymbolicName, SaveModalities.modalities,
        StdMap.find_insert_self]
    · intro other hne
      simp only [UpdateModality, GetDicomModalityUsingSymbolicName, SaveModalities.modalities,
        StdMap.find_insert_ne hne]
  · intro d hd
    have hrun : c.UpdatePeer W name d =
        ⟨SavePeers W { c with peers_ := StdMap.insert name d c.peers_ }, none⟩ := by
      simp only [UpdatePeer, hd]
    rw [hrun]
    refine ⟨rfl, ?_, ?_⟩
    · simp only [LookupOrthancPeer, SavePeers.peers, StdMap.find_insert_self]
    · intro other hne
      simp only [LookupOrthancPeer, SavePeers.peers, StdMap.find_insert_ne hne]
  · refine ⟨rfl, ?_, ?_⟩
    · simp only [RemoveModality, GetDicomModalityUsingSymbolicName, SaveModalities.modalities,
        StdMap.find_erase_self name c.modalities_ hm]
    · intro other hne
      simp only [RemoveModality, GetDicomModalityUsingSymbolicName, SaveModalities.modalities,
        StdMap.find_erase_ne hne]
  · refine ⟨rfl, ?_, ?_⟩
    · simp only [RemovePeer, LookupOrthancPeer, SavePeers.peers,
        StdMap.find_erase_self name c.peers_ hp]
    · intro other hne
      simp only [RemovePeer, LookupOrthancPeer, SavePeers.peers, StdMap.find_erase_ne hne]
  · intro hno
    simp only [RemoveModality, SaveModalities.modalities, StdMap.erase_of_not_mem name _ hno]
  · intro hno
    simp only [RemovePeer, SavePeers.peers, StdMap.erase_of_not_mem name _ hno]

/-- Witness of C13: in the store of the two modalities, `backup` is replaced
and `archive` is still found; once removed, `backup` is an inexistent item. -/
theorem registry_map_semantics_witness :
    (twoModalitiesStore.UpdateModality exampleModalities "backup"
      ⟨"STORE", "10.0.0.3", 11112⟩).state.GetDicomModalityUsingSymbolicName "backup"
      = Except.ok ⟨"STORE", "10.0.0.3", 11112⟩ ∧
    (twoModalitiesStore.UpdateModality exampleModalities "backup"
      ⟨"STORE", "10.0.0.3", 11112⟩).state.GetDicomModalityUsingSymbolicName "archive"
      = Except.ok ⟨"ECHO", "10.0.0.1", 104⟩ ∧
    (twoModalitiesStore.RemoveModality exampleModalities
      "backup").state.GetDicomModalityUsingSymbolicName "backup"
      = Except.error ErrorCode.InexistentItem ∧
    (twoModalitiesStore.RemovePeer examplePeers "peer").state.peers_ = [] :=
  have h := registry_map_semantics exampleModalities examplePeers twoModalitiesStore "backup"
    (by decide) (by decide)
  have h2 := registry_map_semantics exampleModalities examplePeers twoModalitiesStore "peer"
    (by decide) (by decide)
  ⟨(h.1 ⟨"STORE", "10.0.0.3", 11112⟩).2.1,
   ((h.1 ⟨"STORE", "10.0.0.3", 11112⟩).2.2 "archive" (by decide)).trans (by decide),
   h.2.2.1.2.1, h2.2.2.2.2.2 (by decide)⟩

/-- C14: when the check of the client certificate fails, `UpdatePeer` raises
the error of the check and leaves the store, its tree and its two registries,
as it was. -/
theorem update_peer_bad_certificate (W : WebServiceParameters P)
    (c : OrthancConfiguration M P) (name : String) (peer : P) (e : ErrorCode)
    (hcheck : W.CheckClientCertificate peer = Except.error e) :
    (c.UpdatePeer W name peer).thrown = some e ∧
    (c.UpdatePeer W name peer).state = c ∧
    (c.UpdatePeer W name peer).state.peers_ = c.peers_ ∧
    (c.UpdatePeer W name peer).state.json_ = c.json_ ∧
    (c.UpdatePeer W name peer).state.json_.get ORTHANC_PEERS = c.json_.get ORTHANC_PEERS := by
  have hrun : c.UpdatePeer W name peer = ⟨c, some e⟩ := by
    simp only [UpdatePeer, hcheck]
  rw [hrun]
  exact ⟨rfl, rfl, rfl, rfl, rfl⟩

/-- Witness of C14: the peer with the empty URL fails the check of the
examples; the store of the examples is left as it was. -/
theorem update_peer_bad_certificate_witness :
    (exampleStore.UpdatePeer examplePeers "peer" "").thrown = some ErrorCode.BadFileFormat ∧
    (exampleStore.UpdatePeer examplePeers "peer" "").state = exampleStore :=
  have h := update_peer_bad_certificate examplePeers exampleStore "peer" ""
    ErrorCode.BadFileFormat (by decide)
  ⟨h.1, h.2.1⟩

/-- C16: `GetListOfStringsParameter` leaves the empty list when the key is
absent, fails with `BadFileFormat` when the key is present with a value that
is not an array, and leaves the strings of an array of strings, in the order
of the array; what the list held before the call plays no part. -/
theorem list_of_strings (other : Json → String) (c : OrthancConfiguration M P)
    (target : List String) (key : String) :
    (c.json_.isMember key = false →
      c.GetListOfStringsParameter other target key = ⟨[], none⟩) ∧
    (c.json_.isMember key = true → (c.json_.get key).isArray = false →
      (c.GetListOfStringsParameter other target key).thrown = some ErrorCode.BadFileFormat) ∧
    (∀ strings : List String, c.json_.isMember key = true →
      c.json_.get key = Json.arrayValue (strings.map Json.stringValue) →
      c.GetListOfStringsParameter other target key = ⟨strings, none⟩ ∧
      (c.GetListOfStringsParameter other target key).state.length = strings.length) := by
  refine ⟨?_, ?_, ?_⟩
  · intro habs
    simp [GetListOfStringsParameter, habs]
  · intro hpres harr
    simp only [GetListOfStringsParameter, hpres, Bool.not_true, Bool.false_eq_true, if_false]
    cases hv : c.json_.get key <;> simp_all [Json.isArray]
  · intro strings hpres hval
    have hfold : ∀ (l acc : List String),
        (l.map Json.stringValue).foldl (fun target item => target ++ [item.asString other]) acc
          = acc ++ l := by
      intro l
      induction l with
      | nil => intro acc; simp
      | cons x xs ih =>
        intro acc
        have hx : (Json.stringValue x).asString other = x := rfl
        rw [List.map_cons, List.foldl_cons, hx, ih, List.append_assoc, List.singleton_append]
    have hrun : c.GetListOfStringsParameter other target key = ⟨strings, none⟩ := by
      simp only [GetListOfStringsParameter, hpres, Bool.not_true, Bool.false_eq_true, if_false,
        hval, hfold, List.nil_append]
    rw [hrun]
    exact ⟨rfl, rfl⟩

/-- Witness of C16: a list of two plugins is read in its order into a list
that held something else; a string in place of the list is rejected. -/
theorem list_of_strings_witness :
    GetListOfStringsParameter (M := Unit) (P := Unit) (fun _ => "")
        ⟨Json.objectValue [("Plugins",
          Json.arrayValue [Json.stringValue "/usr/lib/b.so", Json.stringValue "/usr/lib/a.so"])],
          [], []⟩ ["old"] "Plugins"
      = ⟨["/usr/lib/b.so", "/usr/lib/a.so"], none⟩ ∧
    (GetListOfStringsParameter (M := Unit) (P := Unit) (fun _ => "")
        ⟨Json.objectValue [("Plugins", Json.stringValue "/usr/lib/a.so")], [], []⟩
        ["old"] "Plugins").thrown
      = some ErrorCode.BadFileFormat ∧
    GetListOfStringsParameter (M := Unit) (P := Unit) (fun _ => "")
        ⟨Json.objectValue [], [], []⟩ ["old"] "Plugins"
      = ⟨[], none⟩ :=
  ⟨((list_of_strings (M := Unit) (P := Unit) (fun _ => "")
      ⟨Json.objectValue [("Plugins",
        Json.arrayValue [Json.stringValue "/usr/lib/b.so", Json.stringValue "/usr/lib/a.so"])],
        [], []⟩ ["old"] "Plugins").2.2 ["/usr/lib/b.so", "/usr/lib/a.so"] (by decide) rfl).1,
   (list_of_strings (M := Unit) (P := Unit) (fun _ => "")
      ⟨Json.objectValue [("Plugins", Json.stringValue "/usr/lib/a.so")], [], []⟩
      ["old"] "Plugins").2.1 (by decide) (by decide),
   (list_of_strings (M := Unit) (P := Unit) (fun _ => "")
      ⟨Json.objectValue [], [], []⟩ ["old"] "Plugins").1 (by decide)⟩

end OrthancConfiguration

/-! ## Loading replaces the registries -/

namespace OrthancConfiguration

variable {M P V : Type}

theorem LoadLoop.keys (u : Json → Except ErrorCode V) (source : Json) :
    ∀ (names : List String) (registry : List (String × V)),
      (LoadLoop u source names registry).thrown = none →
      ∀ k, k ∈ StdMap.keys (LoadLoop u source names registry).state ↔
        k ∈ StdMap.keys registry ∨ k ∈ names
  | [], registry, _, k => by simp [LoadLoop]
  | name :: rest, registry, h, k => by
    simp only [LoadLoop] at h ⊢
    cases hc : CheckAlphanumeric name with
    | error e => simp [hc] at h
    | ok u0 =>
      cases hu : u (source.get name) with
      | error e => simp [hc, hu] at h
      | ok item =>
        simp only [hc, hu] at h ⊢
        rw [LoadLoop.keys u source rest _ h k, StdMap.mem_keys_insert, List.mem_cons]
        constructor
        · rintro ((h1 | h1) | h1)
          · exact Or.inr (Or.inl h1)
          · exact Or.inl h1
          · exact Or.inr (Or.inr h1)
        · rintro (h1 | h1 | h1)
          · exact Or.inl (Or.inr h1)
          · exact Or.inl (Or.inl h1)
          · exact Or.inr h1

theorem load_modalities_keys (R : RemoteModalityParameters M) (source : Json)
    (h : (LoadModalitiesFromJson R source).thrown = none) (k : String) :
    k ∈ StdMap.keys (LoadModalitiesFromJson R source).state ↔ k ∈ source.getMemberNames := by
  have hobj : source.isObject = true := by
    by_contra hno
    simp [LoadModalitiesFromJson, hno] at h
  have hm : LoadModalitiesFromJson R source =
      LoadLoop R.Unserialize source source.getMemberNames [] := by
    simp [LoadModalitiesFromJson, hobj, modalities_loop_eq]
  rw [hm] at h ⊢
  rw [LoadLoop.keys R.Unserialize source _ [] h k]
  simp [StdMap.keys]

theorem load_peers_keys (W : WebServiceParameters P) (source : Json)
    (h : (LoadPeersFromJson W source).thrown = none) (k : String) :
    k ∈ StdMap.keys (LoadPeersFromJson W source).state ↔ k ∈ source.getMemberNames := by
  have hobj : source.isObject = true := by
    by_contra hno
    simp [LoadPeersFromJson, hno] at h
  have hp : LoadPeersFromJson W source =
      LoadLoop W.Unserialize source source.getMemberNames [] := by
    simp [LoadPeersFromJson, hobj, peers_loop_eq]
  rw [hp] at h ⊢
  rw [LoadLoop.keys W.Unserialize source _ [] h k]
  simp [StdMap.keys]

theorem load_first_half (R : RemoteModalityParameters M) (W : WebServiceParameters P)
    (c : OrthancConfiguration M P) :
    (LoadModalitiesAndPeers R W c).state.modalities_ =
      (LoadModalitiesAndPeers.modalities R c).state.modalities_ ∧
    ((LoadModalitiesAndPeers.modalities R c).thrown ≠ none →
      LoadModalitiesAndPeers R W c = LoadModalitiesAndPeers.modalities R c) ∧
    ((LoadModalitiesAndPeers.modalities R c).thrown = none →
      LoadModalitiesAndPeers R W c =
        LoadModalitiesAndPeers.peers W (LoadModalitiesAndPeers.modalities R c).state) := by
  unfold LoadModalitiesAndPeers
  rcases hrun : LoadModalitiesAndPeers.modalities R c with ⟨loaded, _ | e⟩
  · refine ⟨?_, fun h => absurd rfl h, fun _ => rfl⟩
    simp only [LoadModalitiesAndPeers.peers]
    split_ifs <;> rfl
  · exact ⟨rfl, fun _ => rfl, fun h => by cases h⟩

theorem load_halves_tree (R : RemoteModalityParameters M) (W : WebServiceParameters P)
    (c : OrthancConfiguration M P) :
    (LoadModalitiesAndPeers.modalities R c).state.json_ = c.json_ ∧
    (LoadModalitiesAndPeers.peers W c).state.json_ = c.json_ ∧
    (LoadModalitiesAndPeers.modalities R c).state.peers_ = c.peers_ ∧
    (LoadModalitiesAndPeers.peers W c).state.modalities_ = c.modalities_ := by
  simp only [LoadModalitiesAndPeers.modalities, LoadModalitiesAndPeers.peers]
  refine ⟨?_, ?_, ?_, ?_⟩ <;> split_ifs <;> rfl

theorem LoadLoop.succeeds {V : Type} (u : Json → Except ErrorCode V) (source : Json) :
    ∀ (names : List String) (registry : List (String × V)),
      (∀ n ∈ names, IsSymbolicName n ∧ thrownBy (u (source.get n)) = none) →
      (LoadLoop u source names registry).thrown = none
  | [], _, _ => rfl
  | name :: rest, registry, h => by
    obtain ⟨hname, hu⟩ := h name (List.mem_cons_self _ _)
    simp only [LoadLoop, CheckAlphanumeric.ok_of_valid hname]
    cases hv : u (source.get name) with
    | error e => simp [hv, thrownBy] at hu
    | ok item =>
      exact LoadLoop.succeeds u source rest _ (fun n hn => h n (List.mem_cons_of_mem _ hn))

theorem LoadLoop.values {V : Type} (u : Json → Except ErrorCode V) (source : Json) :
    ∀ (names : List String) (registry : List (String × V)),
      (LoadLoop u source names registry).thrown = none →
      ∀ k, StdMap.find k (LoadLoop u source names registry).state =
        if k ∈ names then (u (source.get k)).toOption else StdMap.find k registry
  | [], registry, _, k => by simp [LoadLoop]
  | name :: rest, registry, h, k => by
    simp only [LoadLoop] at h ⊢
    cases hc : CheckAlphanumeric name with
    | error e => simp [hc] at h
    | ok u0 =>
      cases hu : u (source.get name) with
      | error e => simp [hc, hu] at h
      | ok item =>
        simp only [hc, hu] at h ⊢
        rw [LoadLoop.values u source rest _ h k]
        by_cases hk : k ∈ rest
        · simp [hk]
        · by_cases hkn : k = name
          · subst hkn
            simp [hk, StdMap.find_insert_self, hu, Except.toOption]
          · simp [hk, hkn, StdMap.find_insert_ne hkn]

theorem load_modalities_valid (R : RemoteModalityParameters M) (source : Json)
    (hobj : source.isObject = true)
    (hvalid : ∀ n ∈ source.getMemberNames,
      IsSymbolicName n ∧ thrownBy (R.Unserialize (source.get n)) = none) :
    (LoadModalitiesFromJson R source).thrown = none ∧
    (∀ k ∈ source.getMemberNames, ∀ item, R.Unserialize (source.get k) = Except.ok item →
      StdMap.find k (LoadModalitiesFromJson R source).state = some item) := by
  have hm : LoadModalitiesFromJson R source =
      LoadLoop R.Unserialize source source.getMemberNames [] := by
    simp [LoadModalitiesFromJson, hobj, modalities_loop_eq]
  rw [hm]
  have hok := LoadLoop.succeeds R.Unserialize source source.getMemberNames [] hvalid
  refine ⟨hok, ?_⟩
  intro k hk item hitem
  rw [LoadLoop.values R.Unserialize source _ [] hok k, if_pos hk, hitem]
  rfl

theorem load_peers_valid (W : WebServiceParameters P) (source : Json)
    (hobj : source.isObject = true)
    (hvalid : ∀ n ∈ source.getMemberNames,
      IsSymbolicName n ∧ thrownBy (W.Unserialize (source.get n)) = none) :
    (LoadPeersFromJson W source).thrown = none ∧
    (∀ k ∈ source.getMemberNames, ∀ item, W.Unserialize (source.get k) = Except.ok item →
      StdMap.find k (LoadPeersFromJson W source).state = some item) := by
  have hp : LoadPeersFromJson W source =
      LoadLoop W.Unserialize source source.getMemberNames [] := by
    simp [LoadPeersFromJson, hobj, peers_loop_eq]
  rw [hp]
  have hok := LoadLoop.succeeds W.Unserialize source source.getMemberNames [] hvalid
  refine ⟨hok, ?_⟩
  intro k hk item hitem
  rw [LoadLoop.values W.Unserialize source _ [] hok k, if_pos hk, hitem]
  rfl

/-- C17: `LoadModalitiesAndPeers` replaces the registries.  A section of
modalities that is not an object makes the load fail with `BadFileFormat`
and leaves no modality; an absent section leaves no modality; a section that
is an object whose member names are valid and whose members deserialize is
loaded without error and leaves exactly its member names as keys, each with
the descriptor deserialized from its member, whatever the registry held
before.  The same holds for the peers, whose section is loaded once the
modalities have been. -/
theorem load_replaces_registries (R : RemoteModalityParameters M)
    (W : WebServiceParameters P) (c : OrthancConfiguration M P) :
    (c.json_.isMember DICOM_MODALITIES = true →
      (c.json_.get DICOM_MODALITIES).isObject = false →
      (LoadModalitiesAndPeers R W c).thrown = some ErrorCode.BadFileFormat ∧
      (LoadModalitiesAndPeers R W c).state.modalities_ = []) ∧
    (c.json_.isMember DICOM_MODALITIES = false →
      (LoadModalitiesAndPeers R W c).state.modalities_ = []) ∧
    (c.json_.isMember DICOM_MODALITIES = true →
      (c.json_.get DICOM_MODALITIES).isObject = true →
      (∀ n ∈ (c.json_.get DICOM_MODALITIES).getMemberNames, IsSymbolicName n ∧
        thrownBy (R.Unserialize ((c.json_.get DICOM_MODALITIES).get n)) = none) →
      (LoadModalitiesAndPeers.modalities R c).thrown = none ∧
      (∀ k, k ∈ StdMap.keys (LoadModalitiesAndPeers R W c).state.modalities_ ↔
        k ∈ (c.json_.get DICOM_MODALITIES).getMemberNames) ∧
      (∀ k ∈ (c.json_.get DICOM_MODALITIES).getMemberNames, ∀ item,
        R.Unserialize ((c.json_.get DICOM_MODALITIES).get k) = Except.ok item →
        StdMap.find k (LoadModalitiesAndPeers R W c).state.modalities_ = some item)) ∧
    (c.json_.isMember DICOM_MODALITIES = true →
      (LoadModalitiesAndPeers.modalities R c).thrown = none →
      ∀ k, k ∈ StdMap.keys (LoadModalitiesAndPeers R W c).state.modalities_ ↔
        k ∈ (c.json_.get DICOM_MODALITIES).getMemberNames) ∧
    ((LoadModalitiesAndPeers.modalities R c).thrown = none →
      (c.json_.isMember ORTHANC_PEERS = true →
        (c.json_.get ORTHANC_PEERS).isObject = false →
        (LoadModalitiesAndPeers R W c).thrown = some ErrorCode.BadFileFormat ∧
        (LoadModalitiesAndPeers R W c).state.peers_ = []) ∧
      (c.json_.isMember ORTHANC_PEERS = false →
        (LoadModalitiesAndPeers R W c).state.peers_ = []) ∧
      (c.json_.isMember ORTHANC_PEERS = true →
        (c.json_.get ORTHANC_PEERS).isObject = true →
        (∀ n ∈ (c.json_.get ORTHANC_PEERS).getMemberNames, IsSymbolicName n ∧
          thrownBy (W.Unserialize ((c.json_.get ORTHANC_PEERS).get n)) = none) →
        (LoadModalitiesAndPeers R W c).thrown = none ∧
        (∀ k, k ∈ StdMap.keys (LoadModalitiesAndPeers R W c).state.peers_ ↔
          k ∈ (c.json_.get ORTHANC_PEERS).getMemberNames) ∧
        (∀ k ∈ (c.json_.get ORTHANC_PEERS).getMemberNames, ∀ item,
          W.Unserialize ((c.json_.get ORTHANC_PEERS).get k) = Except.ok item →
          StdMap.find k (LoadModalitiesAndPeers R W c).state.peers_ = some item)) ∧
      (c.json_.isMember ORTHANC_PEERS = true →
        (LoadModalitiesAndPeers R W c).thrown = none →
        ∀ k, k ∈ StdMap.keys (LoadModalitiesAndPeers R W c).state.peers_ ↔
          k ∈ (c.json_.get ORTHANC_PEERS).getMemberNames)) := by
  obtain ⟨hmod, hfail, hnext⟩ := load_first_half R W c
  obtain ⟨htree, _, _, _⟩ := load_halves_tree R W c
  refine ⟨?_, ?_, ?_, ?_, ?_⟩
  · intro hmem hobj
    have hhalf : LoadModalitiesAndPeers.modalities R c =
        ⟨{ c with modalities_ := [] }, some ErrorCode.BadFileFormat⟩ := by
      simp [LoadModalitiesAndPeers.modalities, hmem, LoadModalitiesFromJson, hobj]
    rw [hfail (by rw [hhalf]; simp), hhalf]
    exact ⟨rfl, rfl⟩
  · intro hmem
    rw [hmod]
    simp [LoadModalitiesAndPeers.modalities, hmem]
  · intro hmem hobj hvalid
    rw [hmod]
    simp only [LoadModalitiesAndPeers.modalities, hmem, if_true]
    obtain ⟨hok, hvalues⟩ := load_modalities_valid R _ hobj hvalid
    exact ⟨hok, fun k => load_modalities_keys R _ hok k, hvalues⟩
  · intro hmem hok k
    rw [hmod]
    simp only [LoadModalitiesAndPeers.modalities, hmem, if_true] at hok ⊢
    exact load_modalities_keys R _ hok k
  · intro hok
    rw [hnext hok]
    simp only [LoadModalitiesAndPeers.peers, htree]
    refine ⟨?_, ?_, ?_, ?_⟩
    · intro hmem hobj
      simp [hmem, LoadPeersFromJson, hobj]
    · intro hmem
      simp [hmem]
    · intro hmem hobj hvalid
      simp only [hmem, if_true]
      obtain ⟨hload, hvalues⟩ := load_peers_valid W _ hobj hvalid
      exact ⟨hload, fun k => load_peers_keys W _ hload k, hvalues⟩
    · intro hmem hload k
      simp only [hmem, if_true] at hload ⊢
      exact load_peers_keys W _ hload k

/-- Witness of C17: the store with a section of one modality and a section of
one peer is loaded without error; its registries then hold `sample` and
`peer-1`, with the descriptors of the sections, and no longer `old` and
`old-peer`.  In the store whose section of modalities is a string, the load
fails with `BadFileFormat` and no modality is left; in the store without a
section of modalities, no modality is left. -/
theorem load_replaces_registries_witness :
    (LoadModalitiesAndPeers exampleModalities examplePeers loadableStore).thrown = none ∧
    StdMap.find "sample"
      (LoadModalitiesAndPeers exampleModalities examplePeers loadableStore).state.modalities_
      = some ⟨"ECHO", "10.0.0.1", 104⟩ ∧
    "old" ∉ StdMap.keys
      (LoadModalitiesAndPeers exampleModalities examplePeers loadableStore).state.modalities_ ∧
    StdMap.find "peer-1"
      (LoadModalitiesAndPeers exampleModalities examplePeers loadableStore).state.peers_
      = some "http://10.0.0.2:8042/" ∧
    "old-peer" ∉ StdMap.keys
      (LoadModalitiesAndPeers exampleModalities examplePeers loadableStore).state.peers_ ∧
    (LoadModalitiesAndPeers exampleModalities examplePeers staleStore).thrown
      = some ErrorCode.BadFileFormat ∧
    (LoadModalitiesAndPeers exampleModalities examplePeers staleStore).state.modalities_ = [] ∧
    (LoadModalitiesAndPeers exampleModalities examplePeers stalePeersStore).state.modalities_
      = [] :=
  have hl := load_replaces_registries exampleModalities examplePeers loadableStore
  have hm := hl.2.2.1 (by decide) rfl (by decide)
  have hp := (hl.2.2.2.2 hm.1).2.2.1 (by decide) rfl (by decide)
  have hs := (load_replaces_registries exampleModalities examplePeers staleStore).1
    (by decide) (by decide)
  ⟨hp.1, hm.2.2 "sample" (by decide) _ rfl, fun h => absurd ((hm.2.1 "old").1 h) (by decide),
   hp.2.2 "peer-1" (by decide) _ rfl, fun h => absurd ((hp.2.1 "old-peer").1 h) (by decide),
   hs.1, hs.2,
   (load_replaces_registries exampleModalities examplePeers stalePeersStore).2.1 (by decide)⟩

end OrthancConfiguration

/-! ## What a call may change -/

namespace OrthancConfiguration

variable {M P E : Type}

theorem SaveModalities.frame_modalities (R : RemoteModalityParameters M) (c : OrthancConfiguration M P) :
    (∀ k, k ≠ DICOM_MODALITIES →
      StdMap.find k (SaveModalities R c).json_.members = StdMap.find k c.json_.members) ∧
    (SaveModalities R c).peers_ = c.peers_ := by
  unfold SaveModalities
  split_ifs
  · refine ⟨?_, rfl⟩
    intro k hk
    simp only [Json.find_set, if_neg hk]
  · exact ⟨fun _ _ => rfl, rfl⟩

theorem SavePeers.frame_peers (W : WebServiceParameters P) (c : OrthancConfiguration M P) :
    (∀ k, k ≠ ORTHANC_PEERS →
      StdMap.find k (SavePeers W c).json_.members = StdMap.find k c.json_.members) ∧
    (SavePeers W c).modalities_ = c.modalities_ := by
  unfold SavePeers
  split_ifs
  · refine ⟨?_, rfl⟩
    intro k hk
    simp only [Json.find_set, if_neg hk]
  · exact ⟨fun _ _ => rfl, rfl⟩

/-- C18: a call of a `const` member function (a typed getter, the getter of a
list of strings, a lookup by name or by AET, `IsSameAETitle`,
`IsKnownAETitle`, `Format`) leaves the store as it was.  `UpdateModality` and
`RemoveModality` change no top-level key but `"DicomModalities"` and leave
the peers; `UpdatePeer` and `RemovePeer` change no top-level key but
`"OrthancPeers"` and leave the modalities; `SetDefaultEncoding` changes no
top-level key but `"DefaultEncoding"` and leaves both registries. -/
theorem frame_of_calls (R : RemoteModalityParameters M) (W : WebServiceParameters P)
    (EnumerationToString : E → String) (other : Json → String)
    (c : OrthancConfiguration M P) :
    (∀ op : Operation M P E, op.isConst = true →
      (Operation.run R W EnumerationToString other c op).state = c) ∧
    (∀ name d,
      (∀ k, k ≠ DICOM_MODALITIES →
        StdMap.find k (c.UpdateModality R name d).state.json_.members =
          StdMap.find k c.json_.members) ∧
      (c.UpdateModality R name d).state.peers_ = c.peers_) ∧
    (∀ name,
      (∀ k, k ≠ DICOM_MODALITIES →
        StdMap.find k (c.RemoveModality R name).state.json_.members =
          StdMap.find k c.json_.members) ∧
      (c.RemoveModality R name).state.peers_ = c.peers_) ∧
    (∀ name d,
      (∀ k, k ≠ ORTHANC_PEERS →
        StdMap.find k (c.UpdatePeer W name d).state.json_.members =
          StdMap.find k c.json_.members) ∧
      (c.UpdatePeer W name d).state.modalities_ = c.modalities_) ∧
    (∀ name,
      (∀ k, k ≠ ORTHANC_PEERS →
        StdMap.find k (c.RemovePeer W name).state.json_.members =
          StdMap.find k c.json_.members) ∧
      (c.RemovePeer W name).state.modalities_ = c.modalities_) ∧
    (∀ encoding,
      (∀ k, k ≠ "DefaultEncoding" →
        StdMap.find k (c.SetDefaultEncoding EnumerationToString encoding).state.json_.members =
          StdMap.find k c.json_.members) ∧
      (c.SetDefaultEncoding EnumerationToString encoding).state.modalities_ = c.modalities_ ∧
      (c.SetDefaultEncoding EnumerationToString encoding).state.peers_ = c.peers_) := by
  refine ⟨?_, ?_, ?_, ?_, ?_, ?_⟩
  · intro op hop
    cases op <;> first | rfl | exact absurd hop (by simp [Operation.isConst])
  · intro name d
    exact SaveModalities.frame_modalities R { c with modalities_ := StdMap.insert name d c.modalities_ }
  · intro name
    exact SaveModalities.frame_modalities R { c with modalities_ := StdMap.erase name c.modalities_ }
  · intro name d
    cases hd : W.CheckClientCertificate d with
    | error e =>
      have hrun : c.UpdatePeer W name d = ⟨c, some e⟩ := by simp only [UpdatePeer, hd]
      rw [hrun]
      exact ⟨fun _ _ => rfl, rfl⟩
    | ok u =>
      have hrun : c.UpdatePeer W name d =
          ⟨SavePeers W { c with peers_ := StdMap.insert name d c.peers_ }, none⟩ := by
        simp only [UpdatePeer, hd]
      rw [hrun]
      exact SavePeers.frame_peers W { c with peers_ := StdMap.insert name d c.peers_ }
  · intro name
    exact SavePeers.frame_peers W { c with peers_ := StdMap.erase name c.peers_ }
  · intro encoding
    refine ⟨?_, rfl, rfl⟩
    intro k hk
    simp only [SetDefaultEncoding, Json.find_set, if_neg hk]

/-- Witness of C18: in the store of the examples `IsKnownAETitle` leaves the
store as it was, and `UpdateModality` leaves the key
`"DicomCheckModalityHost"` of the tree as it was. -/
theorem frame_of_calls_witness :
    (Operation.run exampleModalities examplePeers (fun e : String => e) (fun _ => "")
      exampleStore (Operation.IsKnownAETitle "echo" "10.0.0.1")).state = exampleStore ∧
    (exampleStore.UpdateModality exampleModalities "pacs"
      ⟨"PACS", "10.0.0.4", 4242⟩).state.json_.get "DicomCheckModalityHost"
      = Json.booleanValue true :=
  have h := frame_of_calls exampleModalities examplePeers (fun e : String => e) (fun _ => "")
    exampleStore
  ⟨h.1 (Operation.IsKnownAETitle "echo" "10.0.0.1") rfl,
   by
    have hk := (h.2.1 "pacs" ⟨"PACS", "10.0.0.4", 4242⟩).1 "DicomCheckModalityHost" (by decide)
    simp only [Json.get, hk]
    rfl⟩

end OrthancConfiguration

/-! ## The registries and their sections -/

namespace OrthancConfiguration

variable {M P E V : Type}

theorem names_fold_set (g : V → Json) :
    ∀ (l : List (String × V)) (j : Json) (k : String),
      k ∈ (l.foldl (fun target it => target.set it.1 (g it.2)) j).getMemberNames ↔
        k ∈ j.getMemberNames ∨ k ∈ StdMap.keys l
  | [], j, k => by simp [StdMap.keys]
  | it :: rest, j, k => by
    rw [List.foldl_cons, names_fold_set g rest (j.set it.1 (g it.2)) k]
    have hset : k ∈ (j.set it.1 (g it.2)).getMemberNames ↔ k = it.1 ∨ k ∈ j.getMemberNames := by
      simp only [Json.getMemberNames, Json.set, Json.members_objectValue]
      exact StdMap.mem_keys_insert it.1 k (g it.2) j.members
    rw [hset]
    simp only [StdMap.keys, List.map_cons, List.mem_cons]
    constructor
    · rintro ((h | h) | h)
      · exact Or.inr (Or.inl h)
      · exact Or.inl h
      · exact Or.inr (Or.inr h)
    · rintro (h | h | h)
      · exact Or.inl (Or.inr h)
      · exact Or.inl (Or.inl h)
      · exact Or.inr h

theorem names_of_absent (j : Json) (key : String) (h : j.isMember key = false) :
    (j.get key).getMemberNames = [] := by
  have hnone : StdMap.find key j.members = none := by
    cases hf : StdMap.find key j.members with
    | none => rfl
    | some v => simp [Json.isMember, hf] at h
  simp only [Json.get, hnone, Option.getD_none]
  rfl

theorem sync_save_modalities (R : RemoteModalityParameters M) (c : OrthancConfiguration M P)
    (hp : ∀ k, k ∈ (c.json_.get ORTHANC_PEERS).getMemberNames ↔ k ∈ StdMap.keys c.peers_) :
    (SaveModalities R c).Synchronized := by
  unfold SaveModalities
  split_ifs with hcond
  · refine ⟨?_, ?_⟩
    · intro k
      simp only [Json.get_set_self, SaveModalitiesToJson]
      rw [names_fold_set R.Serialize c.modalities_ (Json.objectValue []) k]
      simp [Json.getMemberNames, Json.members, StdMap.keys]
    · intro k
      have hne : ORTHANC_PEERS ≠ DICOM_MODALITIES := by decide
      simp only [Json.get_set_ne _ hne]
      exact hp k
  · have hnil : c.modalities_ = [] := by
      cases hl : c.modalities_ with
      | nil => rfl
      | cons x xs => simp [hl] at hcond
    have habs : c.json_.isMember DICOM_MODALITIES = false := by
      cases hm : c.json_.isMember DICOM_MODALITIES with
      | false => rfl
      | true => simp [hm] at hcond
    refine ⟨?_, hp⟩
    intro k
    rw [names_of_absent _ _ habs, hnil]
    simp [StdMap.keys]

theorem sync_save_peers (W : WebServiceParameters P) (c : OrthancConfiguration M P)
    (hm : ∀ k, k ∈ (c.json_.get DICOM_MODALITIES).getMemberNames ↔
      k ∈ StdMap.keys c.modalities_) :
    (SavePeers W c).Synchronized := by
  unfold SavePeers
  split_ifs with hcond
  · refine ⟨?_, ?_⟩
    · intro k
      have hne : DICOM_MODALITIES ≠ ORTHANC_PEERS := by decide
      simp only [Json.get_set_ne _ hne]
      exact hm k
    · intro k
      simp only [Json.get_set_self, SavePeersToJson]
      rw [names_fold_set W.Serialize c.peers_ (Json.objectValue []) k]
      simp [Json.getMemberNames, Json.members, StdMap.keys]
  · have hnil : c.peers_ = [] := by
      cases hl : c.peers_ with
      | nil => rfl
      | cons x xs => simp [hl] at hcond
    have habs : c.json_.isMember ORTHANC_PEERS = false := by
      cases hmem : c.json_.isMember ORTHANC_PEERS with
      | false => rfl
      | true => simp [hmem] at hcond
    refine ⟨hm, ?_⟩
    intro k
    rw [names_of_absent _ _ habs, hnil]
    simp [StdMap.keys]

theorem sync_run (R : RemoteModalityParameters M) (W : WebServiceParameters P)
    (EnumerationToString : E → String) (other : Json → String)
    (c : OrthancConfiguration M P) (h : c.Synchronized) (op : Operation M P E) :
    (Operation.run R W EnumerationToString other c op).state.Synchronized := by
  cases op with
  | UpdateModality name d =>
    exact sync_save_modalities R { c with modalities_ := StdMap.insert name d c.modalities_ } h.2
  | RemoveModality name =>
    exact sync_save_modalities R { c with modalities_ := StdMap.erase name c.modalities_ } h.2
  | UpdatePeer name d =>
    simp only [Operation.run, UpdatePeer]
    cases hd : W.CheckClientCertificate d with
    | error e => exact h
    | ok u =>
      exact sync_save_peers W { c with peers_ := StdMap.insert name d c.peers_ } h.1
  | RemovePeer name =>
    exact sync_save_peers W { c with peers_ := StdMap.erase name c.peers_ } h.1
  | SetDefaultEncoding encoding =>
    have h1 : DICOM_MODALITIES ≠ "DefaultEncoding" := by decide
    have h2 : ORTHANC_PEERS ≠ "DefaultEncoding" := by decide
    refine ⟨?_, ?_⟩
    · intro k
      simp only [Operation.run, SetDefaultEncoding, Json.get_set_ne _ h1]
      exact h.1 k
    · intro k
      simp only [Operation.run, SetDefaultEncoding, Json.get_set_ne _ h2]
      exact h.2 k
  | _ => exact h

theorem sync_of_load (R : RemoteModalityParameters M) (W : WebServiceParameters P)
    (c : OrthancConfiguration M P) (h : (LoadModalitiesAndPeers R W c).thrown = none) :
    (LoadModalitiesAndPeers R W c).state.Synchronized := by
  obtain ⟨_, hfail, hnext⟩ := load_first_half R W c
  obtain ⟨htree, _, _, _⟩ := load_halves_tree R W c
  have hfirst : (LoadModalitiesAndPeers.modalities R c).thrown = none := by
    by_contra hno
    rw [hfail hno] at h
    exact hno h
  rw [hnext hfirst] at h ⊢
  have hmod : ∀ k, k ∈ (c.json_.get DICOM_MODALITIES).getMemberNames ↔
      k ∈ StdMap.keys (LoadModalitiesAndPeers.modalities R c).state.modalities_ := by
    intro k
    by_cases hmem : c.json_.isMember DICOM_MODALITIES = true
    · simp only [LoadModalitiesAndPeers.modalities, hmem, if_true] at hfirst ⊢
      exact (load_modalities_keys R _ hfirst k).symm
    · have habs : c.json_.isMember DICOM_MODALITIES = false := by simpa using hmem
      rw [names_of_absent _ _ habs]
      simp [LoadModalitiesAndPeers.modalities, habs, StdMap.keys]
  generalize LoadModalitiesAndPeers.modalities R c = first at htree hmod h ⊢
  refine ⟨?_, ?_⟩
  · intro k
    simp only [LoadModalitiesAndPeers.peers]
    split_ifs <;> simpa [htree] using hmod k
  · intro k
    by_cases hmem : first.state.json_.isMember ORTHANC_PEERS = true
    · simp only [LoadModalitiesAndPeers.peers, hmem, if_true] at h ⊢
      exact (load_peers_keys W _ h k).symm
    · have habs : first.state.json_.isMember ORTHANC_PEERS = false := by simpa using hmem
      simp only [LoadModalitiesAndPeers.peers, habs, Bool.false_eq_true, if_false]
      rw [names_of_absent _ _ habs]
      simp [StdMap.keys]

theorem read_tree (R : RemoteModalityParameters M) (W : WebServiceParameters P)
    (c : OrthancConfiguration M P) (found : ConfigurationPath)
    (h : (Read R W c found).thrown = none) :
    (ReadConfiguration found).thrown = none ∧
    (Read R W c found).state.json_ = (ReadConfiguration found).state ∧
    Read R W c found =
      LoadModalitiesAndPeers R W { c with json_ := (ReadConfiguration found).state } := by
  unfold Read at h ⊢
  rcases hrun : ReadConfiguration found with ⟨tree, _ | e⟩
  · refine ⟨rfl, ?_, rfl⟩
    obtain ⟨_, hfail, hnext⟩ := load_first_half R W { c with json_ := tree }
    obtain ⟨h1, h2, _, _⟩ := load_halves_tree R W { c with json_ := tree }
    by_cases hfirst : (LoadModalitiesAndPeers.modalities R { c with json_ := tree }).thrown = none
    · simp only [hnext hfirst]
      rw [(load_halves_tree R W _).2.1, h1]
    · simp only [hfail hfirst, h1]
  · simp [hrun] at h

/-- C19: in every store reached from a successful `Read` by calls of
`UpdateModality`, `RemoveModality`, `UpdatePeer`, `RemovePeer`,
`SetDefaultEncoding` and of the `const` member functions, whether they return
or raise, the member names of the section `"DicomModalities"` of the tree
are the keys of the registry of the modalities, and the member names of the
section `"OrthancPeers"` the keys of the registry of the peers. -/
theorem registries_synchronized (R : RemoteModalityParameters M)
    (W : WebServiceParameters P) (EnumerationToString : E → String) (other : Json → String)
    (c0 : OrthancConfiguration M P) (found : ConfigurationPath)
    (hread : (Read R W c0 found).thrown = none) :
    ∀ c, Reached R W EnumerationToString other (Read R W c0 found).state c →
      (∀ k, k ∈ (c.json_.get DICOM_MODALITIES).getMemberNames ↔
        k ∈ StdMap.keys c.modalities_) ∧
      (∀ k, k ∈ (c.json_.get ORTHANC_PEERS).getMemberNames ↔ k ∈ StdMap.keys c.peers_) := by
  intro c hreached
  have hstart : (Read R W c0 found).state.Synchronized := by
    have hload := (read_tree R W c0 found hread).2.2
    rw [hload] at hread ⊢
    exact sync_of_load R W _ hread
  have hall : c.Synchronized := by
    induction hreached with
    | start => exact hstart
    | call c1 op _ ih => exact sync_run R W EnumerationToString other c1 ih op
  exact hall

/-- Witness of C19: after `Read` of the file of the examples and an update
of the modality `pacs`, the section and the registry hold the names `pacs` and
`sample`. -/
theorem registries_synchronized_witness :
    (((Read exampleModalities examplePeers emptyConfiguration exampleFile).state.UpdateModality
      exampleModalities "pacs" ⟨"PACS", "10.0.0.4", 4242⟩).state.json_.get
        DICOM_MODALITIES).getMemberNames = ["pacs", "sample"] ∧
    StdMap.keys ((Read exampleModalities examplePeers emptyConfiguration
      exampleFile).state.UpdateModality exampleModalities "pacs"
        ⟨"PACS", "10.0.0.4", 4242⟩).state.modalities_ = ["pacs", "sample"] ∧
    (∀ k, k ∈ (((Read exampleModalities examplePeers emptyConfiguration
        exampleFile).state.UpdateModality exampleModalities "pacs"
          ⟨"PACS", "10.0.0.4", 4242⟩).state.json_.get DICOM_MODALITIES).getMemberNames ↔
      k ∈ StdMap.keys ((Read exampleModalities examplePeers emptyConfiguration
        exampleFile).state.UpdateModality exampleModalities "pacs"
          ⟨"PACS", "10.0.0.4", 4242⟩).state.modalities_) :=
  ⟨by decide, by decide,
   (registries_synchronized exampleModalities examplePeers (fun e : String => e) (fun _ => "")
      emptyConfiguration exampleFile (by decide) _
      (Reached.call _ (Operation.UpdateModality "pacs" ⟨"PACS", "10.0.0.4", 4242⟩)
        Reached.start)).1⟩

end OrthancConfiguration

/-! ## Detecting a change of the configuration -/

namespace OrthancConfiguration

variable {M P E : Type}

theorem const_keeps_store (R : RemoteModalityParameters M) (W : WebServiceParameters P)
    (EnumerationToString : E → String) (other : Json → String)
    (start c : OrthancConfiguration M P)
    (h : ReachedByConst R W EnumerationToString other start c) : c = start := by
  induction h with
  | start => rfl
  | call c1 op hop _ ih =>
    rw [← ih]
    cases op <;> first | rfl | exact absurd hop (by simp [Operation.isConst])

/-- C15, as stated, fails.  After `Read` of the file of the examples and an
update of the modality `pacs`, `HasConfigurationChanged` returns `true` though
the file still yields the tree that `Read` produced; and it returns `false`
once the file has been edited to hold the modality `pacs`, though the file
then yields another tree than the one `Read` produced. -/
theorem has_changed_follows_memory :
    (Read exampleModalities examplePeers emptyConfiguration exampleFile).thrown = none ∧
    (ReadConfiguration exampleFile).thrown = none ∧
    (ReadConfiguration exampleFile).state =
      (Read exampleModalities examplePeers emptyConfiguration exampleFile).state.json_ ∧
    HasConfigurationChanged exampleWriter
      ((Read exampleModalities examplePeers emptyConfiguration exampleFile).state.UpdateModality
        exampleModalities "pacs" ⟨"PACS", "10.0.0.4", 4242⟩).state exampleFile
      = Except.ok true ∧
    (ReadConfiguration exampleFileEdited).thrown = none ∧
    (ReadConfiguration exampleFileEdited).state ≠
      (Read exampleModalities examplePeers emptyConfiguration exampleFile).state.json_ ∧
    HasConfigurationChanged exampleWriter
      ((Read exampleModalities examplePeers emptyConfiguration exampleFile).state.UpdateModality
        exampleModalities "pacs" ⟨"PACS", "10.0.0.4", 4242⟩).state exampleFileEdited
      = Except.ok false :=
  ⟨by decide, by decide, rfl, by decide, by decide,
   fun h => absurd (congrArg exampleWriter h) (by decide), by decide⟩

/-- C15 (amended): `HasConfigurationChanged` compares the tree that the
configuration now yields with the tree in memory: when the configuration can
be read again, the result is `true` exactly when the writer gives the two
trees different texts.  In a store reached from a successful `Read` by calls
of `const` member functions, the result is `false` if the configuration
yields the tree that `Read` produced, and `true` if it yields a tree with
another text. -/
theorem has_changed_against_memory (R : RemoteModalityParameters M)
    (W : WebServiceParameters P) (EnumerationToString : E → String) (other : Json → String)
    (write : Json → String) (c0 : OrthancConfiguration M P) (found0 : ConfigurationPath)
    (hread : (Read R W c0 found0).thrown = none) :
    (∀ (c : OrthancConfiguration M P) found current,
      ReadConfiguration found = ⟨current, none⟩ →
      c.HasConfigurationChanged write found =
        Except.ok (decide (write c.json_ ≠ write current))) ∧
    (∀ (c : OrthancConfiguration M P) found current,
      ReachedByConst R W EnumerationToString other (Read R W c0 found0).state c →
      ReadConfiguration found = ⟨current, none⟩ →
      (current = (ReadConfiguration found0).state →
        c.HasConfigurationChanged write found = Except.ok false) ∧
      (write current ≠ write (ReadConfiguration found0).state →
        c.HasConfigurationChanged write found = Except.ok true)) := by
  have hgen : ∀ (c : OrthancConfiguration M P) found current,
      ReadConfiguration found = ⟨current, none⟩ →
      c.HasConfigurationChanged write found =
        Except.ok (decide (write c.json_ ≠ write current)) := by
    intro c found current hreload
    simp only [HasConfigurationChanged, hreload]
  refine ⟨hgen, ?_⟩
  intro c found current hreached hreload
  have hc : c = (Read R W c0 found0).state :=
    const_keeps_store R W EnumerationToString other _ c hreached
  have htree : c.json_ = (ReadConfiguration found0).state := by
    rw [hc]
    exact (read_tree R W c0 found0 hread).2.1
  rw [hgen c found current hreload, htree]
  constructor
  · intro hsame
    rw [hsame]
    simp
  · intro hdiff
    have hne : write (ReadConfiguration found0).state ≠ write current := fun h => hdiff h.symm
    simp [hne]

/-- Witness of C15 (amended): right after `Read` of the file of the examples,
and after a lookup, `HasConfigurationChanged` returns `false` on the same
file and `true` on the edited file. -/
theorem has_changed_against_memory_witness :
    HasConfigurationChanged exampleWriter
      (Read exampleModalities examplePeers emptyConfiguration exampleFile).state exampleFile
      = Except.ok false ∧
    HasConfigurationChanged exampleWriter
      (Operation.run exampleModalities examplePeers (fun e : String => e) (fun _ => "")
        (Read exampleModalities examplePeers emptyConfiguration exampleFile).state
        (Operation.GetDicomModalityUsingSymbolicName "sample")).state exampleFileEdited
      = Except.ok true :=
  have h := (has_changed_against_memory exampleModalities examplePeers
    (fun e : String => e) (fun _ => "") exampleWriter emptyConfiguration exampleFile
    (by decide)).2
  ⟨(h _ exampleFile _ ReachedByConst.start rfl).1 rfl,
   (h _ exampleFileEdited _
      (ReachedByConst.call _ (Operation.GetDicomModalityUsingSymbolicName "sample") rfl
        ReachedByConst.start) rfl).2 (by decide)⟩

end OrthancConfiguration

/-! ## The two comparisons of AETs -/

namespace OrthancConfiguration

variable {M P : Type}

theorem is_same_strict (c : OrthancConfiguration M P)
    (h : c.GetBooleanParameter "StrictAetComparison" false = Except.ok true) (a b : String) :
    c.IsSameAETitle a b = Except.ok (decide (a = b)) := by
  simp only [IsSameAETitle, h]

theorem is_same_default (c : OrthancConfiguration M P)
    (h : c.GetBooleanParameter "StrictAetComparison" false = Except.ok false) (a b : String) :
    c.IsSameAETitle a b = Except.ok (decide (ToLowerCase a = ToLowerCase b)) := by
  simp only [IsSameAETitle, h]

theorem lookup_found_iff (R : RemoteModalityParameters M) (c : OrthancConfiguration M P)
    (aet : String)
    (hdef : ∀ x ∈ c.modalities_,
      ∃ b, c.IsSameAETitle aet (R.GetApplicationEntityTitle x.2) = Except.ok b) :
    (∃ m, c.LookupDicomModalityUsingAETitle R aet = Except.ok (some m)) ↔
      ∃ it ∈ c.modalities_,
        c.IsSameAETitle aet (R.GetApplicationEntityTitle it.2) = Except.ok true := by
  rcases lookup_split R c aet c.modalities_ hdef with hnone | ⟨pre, it, post, hsplit, hpre, hit⟩
  · have hres : c.LookupDicomModalityUsingAETitle R aet = Except.ok none :=
      lookup_none R c aet _ hnone
    constructor
    · rintro ⟨m, hm⟩
      rw [hres] at hm
      cases hm
    · rintro ⟨x, hx, hmatch⟩
      rw [hnone x hx] at hmatch
      cases hmatch
  · have hres : c.LookupDicomModalityUsingAETitle R aet = Except.ok (some it.2) := by
      unfold LookupDicomModalityUsingAETitle
      rw [hsplit]
      exact lookup_first R c aet it post hit pre hpre
    have hmem : it ∈ c.modalities_ := by rw [hsplit]; simp
    exact ⟨fun _ => ⟨it, hmem, hit⟩, fun _ => ⟨it.2, hres⟩⟩

/-- C21: let `cs` be a store in strict mode (`"StrictAetComparison"` is
`true`) and `cd` a store in default mode (`"StrictAetComparison"` is absent
or `false`).  In each of them `IsSameAETitle` returns a Boolean for every
pair of strings and is reflexive, symmetric and transitive.  Two AETs that
are the same in `cs` are the same in `cd`; hence, when the two stores hold
the same registry, an AET for which `LookupDicomModalityUsingAETitle` finds a
modality in `cs` has a modality found in `cd` too. -/
theorem aet_equivalence (R : RemoteModalityParameters M) (cs cd : OrthancConfiguration M P)
    (hstrict : cs.json_.isMember "StrictAetComparison" = true ∧
      cs.json_.get "StrictAetComparison" = Json.booleanValue true)
    (hdefault : cd.json_.isMember "StrictAetComparison" = false ∨
      cd.json_.get "StrictAetComparison" = Json.booleanValue false) :
    ((∀ a b, ∃ r, cs.IsSameAETitle a b = Except.ok r) ∧
      (∀ a, cs.IsSameAETitle a a = Except.ok true) ∧
      (∀ a b, cs.IsSameAETitle a b = Except.ok true → cs.IsSameAETitle b a = Except.ok true) ∧
      (∀ a b c, cs.IsSameAETitle a b = Except.ok true → cs.IsSameAETitle b c = Except.ok true →
        cs.IsSameAETitle a c = Except.ok true)) ∧
    ((∀ a b, ∃ r, cd.IsSameAETitle a b = Except.ok r) ∧
      (∀ a, cd.IsSameAETitle a a = Except.ok true) ∧
      (∀ a b, cd.IsSameAETitle a b = Except.ok true → cd.IsSameAETitle b a = Except.ok true) ∧
      (∀ a b c, cd.IsSameAETitle a b = Except.ok true → cd.IsSameAETitle b c = Except.ok true →
        cd.IsSameAETitle a c = Except.ok true)) ∧
    (∀ a b, cs.IsSameAETitle a b = Except.ok true → cd.IsSameAETitle a b = Except.ok true) ∧
    (cs.modalities_ = cd.modalities_ → ∀ aet,
      (∃ m, cs.LookupDicomModalityUsingAETitle R aet = Except.ok (some m)) →
      ∃ m, cd.LookupDicomModalityUsingAETitle R aet = Except.ok (some m)) := by
  have hs : cs.GetBooleanParameter "StrictAetComparison" false = Except.ok true := by
    simp [GetBooleanParameter, hstrict.1, hstrict.2]
  have hd : cd.GetBooleanParameter "StrictAetComparison" false = Except.ok false := by
    rcases hdefault with habs | hfalse
    · simp [GetBooleanParameter, habs]
    · by_cases hm : cd.json_.isMember "StrictAetComparison" = true
      · simp [GetBooleanParameter, hm, hfalse]
      · simp [GetBooleanParameter, hm]
  have es : ∀ a b, cs.IsSameAETitle a b = Except.ok true ↔ a = b := by
    intro a b
    rw [is_same_strict cs hs a b]
    simp
  have ed : ∀ a b, cd.IsSameAETitle a b = Except.ok true ↔ ToLowerCase a = ToLowerCase b := by
    intro a b
    rw [is_same_default cd hd a b]
    simp
  have href : ∀ a b, cs.IsSameAETitle a b = Except.ok true →
      cd.IsSameAETitle a b = Except.ok true := by
    intro a b h
    rw [ed]
    rw [(es a b).1 h]
  refine ⟨⟨fun a b => ⟨_, is_same_strict cs hs a b⟩, ?_, ?_, ?_⟩,
    ⟨fun a b => ⟨_, is_same_default cd hd a b⟩, ?_, ?_, ?_⟩, href, ?_⟩
  · intro a
    exact (es a a).2 rfl
  · intro a b h
    exact (es b a).2 ((es a b).1 h).symm
  · intro a b c h1 h2
    exact (es a c).2 (((es a b).1 h1).trans ((es b c).1 h2))
  · intro a
    exact (ed a a).2 rfl
  · intro a b h
    exact (ed b a).2 ((ed a b).1 h).symm
  · intro a b c h1 h2
    exact (ed a c).2 (((ed a b).1 h1).trans ((ed b c).1 h2))
  · intro hreg aet hfound
    have hdefs : ∀ x ∈ cs.modalities_,
        ∃ b, cs.IsSameAETitle aet (R.GetApplicationEntityTitle x.2) = Except.ok b :=
      fun x _ => ⟨_, is_same_strict cs hs _ _⟩
    have hdefd : ∀ x ∈ cd.modalities_,
        ∃ b, cd.IsSameAETitle aet (R.GetApplicationEntityTitle x.2) = Except.ok b :=
      fun x _ => ⟨_, is_same_default cd hd _ _⟩
    obtain ⟨it, hmem, hit⟩ := (lookup_found_iff R cs aet hdefs).1 hfound
    exact (lookup_found_iff R cd aet hdefd).2 ⟨it, hreg ▸ hmem, href _ _ hit⟩

/-- Witness of C21: the AET `echo` is found in strict mode, under the name
`backup`, and in default mode on the same registry, under the name `archive`;
`ECHO` and `echo` are the same in default mode only. -/
theorem aet_equivalence_witness :
    strictStore.LookupDicomModalityUsingAETitle exampleModalities "echo"
      = Except.ok (some ⟨"echo", "10.0.0.2", 104⟩) ∧
    twoModalitiesStore.LookupDicomModalityUsingAETitle exampleModalities "echo"
      = Except.ok (some ⟨"ECHO", "10.0.0.1", 104⟩) ∧
    strictStore.IsSameAETitle "ECHO" "echo" = Except.ok false ∧
    twoModalitiesStore.IsSameAETitle "ECHO" "echo" = Except.ok true ∧
    (∃ m, twoModalitiesStore.LookupDicomModalityUsingAETitle exampleModalities "echo"
      = Except.ok (some m)) :=
  ⟨by decide, by decide, by decide, by decide,
   (aet_equivalence exampleModalities strictStore twoModalitiesStore
      ⟨by decide, rfl⟩ (Or.inl (by decide))).2.2.2 rfl "echo"
      ⟨⟨"echo", "10.0.0.2", 104⟩, by decide⟩⟩

end OrthancConfiguration

end Orthanc
